import Mathlib

/-!
Verification of the atools navigation-data compiler core against its
specification.  The definitions below are shallow embeddings of the C++
sources (`fs/dfd/dfdcompiler.cpp`, `fs/bgl/ap/approach.cpp`,
`fs/weather/metarindex.h`); coordinates and bearings are modelled as
rationals, machine strings as Lean strings, SQL record streams as lists.
-/

/-! ## String helpers mirroring the Qt string operations used by the code -/

/-- Model of `QString::toInt` restricted to the strings that occur in runway
identifiers: a non-empty all-digit string parses to its decimal value, any
other string yields 0 (as Qt does on conversion failure). -/
def qtToInt (s : String) : Nat :=
  if s.length ≠ 0 ∧ s.toList.all (fun c => c.isDigit)
  then s.toList.foldl (fun a c => a * 10 + (c.toNat - 48)) 0
  else 0

/-- Model of `QString::at(i)` wrapped into a one-character string. -/
def charAt (s : String) (i : Nat) : String :=
  match s.toList.drop i with
  | c :: _ => String.singleton c
  | [] => ""

/-! ## Runway pairing (DfdCompiler::pairRunways) -/

/-- One row of `src.tbl_runways_pr` as read by `DfdCompiler`, restricted to
the columns the compiler actually touches.  `llz_identifier` is nullable;
`is_closed` is the extra field appended to synthesized ends (absent on
source rows, which `valueBool("is_closed", false)` reads as `false`, so
source rows carry `false` here). -/
structure RwRec where
  runway_identifier : String
  runway_latitude : ℚ
  runway_longitude : ℚ
  runway_magnetic_bearing : ℚ
  runway_true_bearing : ℚ
  landing_threshold_elevation : Int
  displaced_threshold_distance : Int
  runway_length : Int
  runway_width : Int
  llz_identifier : Option String
  is_closed : Bool
  deriving DecidableEq, Repr

/-- `valueStr("llz_identifier")`: a SQL null reads as the empty string. -/
def RwRec.llzStr (r : RwRec) : String :=
  r.llz_identifier.getD ""

/-- Modelled from the spec: course normalization from the geo primitives
(`atools::geo`, not under src/): bring a course in degrees into [0, 360). -/
def normalizeCourse (c : ℚ) : ℚ :=
  c - 360 * (⌊c / 360⌋ : ℤ)

/-- Modelled from the spec: the opposed course (reversed heading) from the
geo primitives (not under src/): the course turned by 180 degrees,
normalized. -/
def opposedCourseDeg (c : ℚ) : ℚ :=
  normalizeCourse (c + 180)

/-- The opposed runway-identifier computation of `DfdCompiler::pairRunways`:
strip the `RW` prefix, parse the two-digit number, take the optional
designator, swap R and L, add 18 to the number subtracting 36 once if the
sum exceeds 36, and reassemble with zero padding. -/
def opposedRname (rwident : String) : String :=
  let rname := rwident.drop 2
  let rnum := qtToInt (rname.take 2)
  let desig := if 2 < rname.length then charAt rname 2 else ""
  let opposedDesig := if desig = "R" then "L" else if desig = "L" then "R" else desig
  let opposedRnum := if rnum + 18 > 36 then rnum + 18 - 36 else rnum + 18
  "RW" ++ (if opposedRnum < 10 then "0" else "") ++ toString opposedRnum ++ opposedDesig

/-- The synthesized closed stub end of `DfdCompiler::pairRunways`: a copy of
the unpaired end with the identifier replaced by the opposed name, displaced
threshold zeroed, ILS identifier cleared to null, true bearing opposed, and
the appended `is_closed` field set. -/
def synthOpposedEnd (rw : RwRec) (oname : String) : RwRec :=
  { rw with
    runway_identifier := oname
    displaced_threshold_distance := 0
    llz_identifier := none
    runway_true_bearing := opposedCourseDeg rw.runway_true_bearing
    is_closed := true }

/-- The scan loop of `DfdCompiler::pairRunways`: `all` is the full runway
list of the airport (searched for opposite ends), the first list argument is
the remaining part being iterated, the second is the `found` set of already
consumed identifiers. -/
def pairRunwaysGo (all : List RwRec) : List RwRec → List String → List (RwRec × RwRec)
  | [], _ => []
  | rw :: rest, found =>
    if rw.runway_identifier ∈ found then
      pairRunwaysGo all rest found
    else
      let oname := opposedRname rw.runway_identifier
      match all.find? (fun orw => orw.runway_identifier == oname) with
      | some orw =>
        (rw, orw) :: pairRunwaysGo all rest (oname :: rw.runway_identifier :: found)
      | none =>
        (rw, synthOpposedEnd rw oname) :: pairRunwaysGo all rest found

/-- `DfdCompiler::pairRunways`: pair opposing runway ends of one airport. -/
def pairRunways (runways : List RwRec) : List (RwRec × RwRec) :=
  pairRunwaysGo runways runways []

/-! ## The specification-side description of the pairing -/

/-- Build a runway-end identifier of the shape the spec describes: `RW`,
a zero-padded two-digit number, and an optional designator letter. -/
def mkRwIdent (n : Nat) (d : String) : String :=
  "RW" ++ (if n < 10 then "0" ++ toString n else toString n) ++ d

/-- The opposite runway number exactly as the claim words it:
`(n + 18) mod 36` with a result of 0 remapped to 36. -/
def claimOpposedNum (n : Nat) : Nat :=
  if (n + 18) % 36 = 0 then 36 else (n + 18) % 36

/-- The designator swap as the claim words it: L and R swap, anything else
(C or the empty designator) stays. -/
def claimSwapDesig (d : String) : String :=
  if d = "L" then "R" else if d = "R" then "L" else d

/-- The canonical opposite identifier exactly as the claim words it. -/
def claimOpposedIdent (n : Nat) (d : String) : String :=
  mkRwIdent (claimOpposedNum n) (claimSwapDesig d)

/-- The opposite number as the code computes it (add 18, subtract 36 once if
above 36), lifted to numbers for reasoning. -/
def codeOpposedNum (n : Nat) : Nat :=
  if n + 18 > 36 then n + 18 - 36 else n + 18

/-- The designator letters admitted by the spec. -/
def validDesigs : List String := ["", "L", "R", "C"]

/-- A well-formed source runway-end row: identifier of the documented shape
with number 1..36, and not carrying the synthetic `is_closed` flag. -/
def WFRec (r : RwRec) : Prop :=
  (∃ n d, 1 ≤ n ∧ n ≤ 36 ∧ d ∈ validDesigs ∧ r.runway_identifier = mkRwIdent n d) ∧
    r.is_closed = false

/-- A well-formed airport input set: well-formed rows with pairwise distinct
identifiers. -/
def WFList (l : List RwRec) : Prop :=
  (∀ r ∈ l, WFRec r) ∧ (l.map (fun r => r.runway_identifier)).Nodup

/-- The emission rule as the claim words it, per input end `rw`: if an end
with the canonical opposite identifier exists, a pair of the two source ends
is emitted exactly when `rw` is the earlier of the two (otherwise `rw` was
already consumed by the earlier pairing); if no opposite exists, the pair
with the synthesized stub is emitted. -/
def pairEmit (all : List RwRec) (rw : RwRec) : Option (RwRec × RwRec) :=
  match all.find? (fun orw => orw.runway_identifier == opposedRname rw.runway_identifier) with
  | some orw =>
    if all.find? (fun x => x.runway_identifier == rw.runway_identifier ||
        x.runway_identifier == orw.runway_identifier) = some rw
    then some (rw, orw) else none
  | none => some (rw, synthOpposedEnd rw (opposedRname rw.runway_identifier))

/-- A string of the documented runway-end identifier shape with number in
the aeronautical range 1..36. -/
def WFIdent (s : String) : Prop :=
  ∃ n d, 1 ≤ n ∧ n ≤ 36 ∧ d ∈ validDesigs ∧ s = mkRwIdent n d

/-! ### List helper lemmas -/

/-- The identifiers consumed after processing the prefix `pre` of the
airport's runway list: identifiers taking part in a pairing whose opposite
end exists in the input set. -/
def foundSpec (all pre : List RwRec) (s : String) : Prop :=
  ∃ r ∈ pre, ∃ orw ∈ all, orw.runway_identifier = opposedRname r.runway_identifier ∧
    (s = r.runway_identifier ∨ s = orw.runway_identifier)

/-- The synthesized closed stub for an end whose opposite is absent. -/
def closedStub (rw : RwRec) : RwRec :=
  synthOpposedEnd rw (opposedRname rw.runway_identifier)

/-- A concrete runway end used to instantiate the pairing theorems. -/
def rwEnd13L : RwRec :=
  { runway_identifier := "RW13L", runway_latitude := 1, runway_longitude := 2
    runway_magnetic_bearing := 133, runway_true_bearing := 133
    landing_threshold_elevation := 30, displaced_threshold_distance := 0
    runway_length := 8000, runway_width := 150
    llz_identifier := some "ILBC", is_closed := false }

/-- The opposing concrete runway end. -/
def rwEnd31R : RwRec :=
  { runway_identifier := "RW31R", runway_latitude := 1, runway_longitude := 2
    runway_magnetic_bearing := 313, runway_true_bearing := 313
    landing_threshold_elevation := 30, displaced_threshold_distance := 0
    runway_length := 8000, runway_width := 150
    llz_identifier := none, is_closed := false }

/-- A concrete runway end without an opposing end in its input set. -/
def rwEnd09 : RwRec :=
  { runway_identifier := "RW09", runway_latitude := 5, runway_longitude := 6
    runway_magnetic_bearing := 88, runway_true_bearing := 88
    landing_threshold_elevation := 11, displaced_threshold_distance := 200
    runway_length := 4000, runway_width := 100
    llz_identifier := some "IXYZ", is_closed := false }

/-! ## Geo primitives (atools::geo, not under src/) -/

/-- Modelled from the spec: the geodetic position of the geo primitives
(longitude, latitude as floats), not under src/. -/
structure Pos where
  lonx : ℚ
  laty : ℚ
  deriving DecidableEq, Repr

/-- Modelled from the spec: the bounding rectangle of the geo primitives
(top-left and bottom-right corner, four stored columns), not under src/. -/
structure Rect where
  leftLonX : ℚ
  topLatY : ℚ
  rightLonX : ℚ
  bottomLatY : ℚ
  deriving DecidableEq, Repr

/-- Modelled from the spec: the `Rect(pos)` constructor, a degenerate
rectangle at one position. -/
def Rect.single (p : Pos) : Rect :=
  ⟨p.lonx, p.laty, p.lonx, p.laty⟩

/-- Modelled from the spec: `Rect::extend` grows the rectangle to include
the given position. -/
def Rect.extend (r : Rect) (p : Pos) : Rect :=
  ⟨min r.leftLonX p.lonx, max r.topLatY p.laty,
    max r.rightLonX p.lonx, min r.bottomLatY p.laty⟩

/-- Modelled from the spec: `Rect::inflate` pads the rectangle on both axes. -/
def Rect.inflate (r : Rect) (ex ey : ℚ) : Rect :=
  ⟨r.leftLonX - ex, r.topLatY + ey, r.rightLonX + ex, r.bottomLatY - ey⟩

/-- A position lies within the rectangle. -/
def Rect.containsPos (r : Rect) (p : Pos) : Prop :=
  r.leftLonX ≤ p.lonx ∧ p.lonx ≤ r.rightLonX ∧
    r.bottomLatY ≤ p.laty ∧ p.laty ≤ r.topLatY

instance (r : Rect) (p : Pos) : Decidable (r.containsPos p) := by
  unfold Rect.containsPos
  infer_instance

/-- One rectangle contains another. -/
def Rect.containsRect (r s : Rect) : Prop :=
  r.leftLonX ≤ s.leftLonX ∧ s.rightLonX ≤ r.rightLonX ∧
    r.bottomLatY ≤ s.bottomLatY ∧ s.topLatY ≤ r.topLatY

/-! ## Airway segment writer (DfdCompiler::writeAirways) -/

/-- One row of the airway source query (tbl_airways_pr joined with
waypoint), ordered by route_identifier and seqno. -/
structure AirwayRow where
  route_identifier : String
  seqno : Int
  flightlevel : String
  waypoint_description_code : String
  waypoint_id : Int
  direction_restriction : String
  minimum_altitude1 : Int
  maximum_altitude : Int
  lonx : ℚ
  laty : ℚ
  deriving DecidableEq, Repr

/-- One inserted airway segment row. -/
structure AirwaySeg where
  airway_name : String
  airway_type : String
  airway_fragment_no : Nat
  sequence_no : Nat
  from_waypoint_id : Int
  to_waypoint_id : Int
  direction : String
  minimum_altitude : Int
  maximum_altitude : Int
  bounding : Rect
  from_pos : Pos
  to_pos : Pos
  deriving DecidableEq, Repr

/-- The flight-level column mapping of `writeAirways`: H is jet, L is
victor, anything else is both. -/
def airwayTypeOf (fl : String) : String :=
  if fl = "H" then "J" else if fl = "L" then "V" else "B"

/-- The direction-restriction mapping of `writeAirways`: empty or blank is
N, otherwise the source letter. -/
def directionOf (d : String) : String :=
  if d = "" ∨ d = " " then "N" else d

/-- The segment row inserted by `writeAirways` for the previous and current
rows: values come from the previous row except the to-waypoint. -/
def mkAirwaySeg (prev cur : AirwayRow) (frag seq : Nat) : AirwaySeg :=
  let fromPos : Pos := ⟨prev.lonx, prev.laty⟩
  let toPos : Pos := ⟨cur.lonx, cur.laty⟩
  { airway_name := prev.route_identifier
    airway_type := airwayTypeOf prev.flightlevel
    airway_fragment_no := frag
    sequence_no := seq
    from_waypoint_id := prev.waypoint_id
    to_waypoint_id := cur.waypoint_id
    direction := directionOf prev.direction_restriction
    minimum_altitude := prev.minimum_altitude1
    maximum_altitude := prev.maximum_altitude
    bounding := Rect.extend (Rect.single fromPos) toPos
    from_pos := fromPos
    to_pos := toPos }

/-- The end-of-route test of `writeAirways`: the description code has more
than one character and its second character is E. -/
def eorOf (code : String) : Bool :=
  decide (1 < code.length) && (charAt code 1 == "E")

/-- The scan loop of `DfdCompiler::writeAirways`.  State: the previous
record (none before the first iteration, mirroring the uninitialized
`SqlRecord`, which the code only reads once `lastName` is non-empty), the
previous route name (empty before the first iteration), the previous
end-of-route flag, and the fragment and sequence counters. -/
def writeAirwaysLoop :
    List AirwayRow → Option AirwayRow → String → Bool → Nat → Nat → List AirwaySeg
  | [], _, _, _, _, _ => []
  | row :: rest, lastRec, lastName, lastEOR, frag, seq =>
    let name := row.route_identifier
    let nameChange := lastName != "" && name != lastName
    let frag1 := if lastName != "" && !nameChange && lastEOR then frag + 1 else frag
    let seq1 := if lastName != "" && !nameChange && lastEOR then 1 else seq
    let emit := lastName != "" && !lastEOR && !nameChange
    let newEOR := eorOf row.waypoint_description_code
    let frag2 := if nameChange then 1 else frag1
    let seq2 := if nameChange then 1 else if emit then seq1 + 1 else seq1
    let restSegs := writeAirwaysLoop rest (some row) name newEOR frag2 seq2
    if emit then mkAirwaySeg (lastRec.getD row) row frag1 seq1 :: restSegs else restSegs

/-- `DfdCompiler::writeAirways`: scan the ordered airway rows and emit the
directed segments. -/
def writeAirways (rows : List AirwayRow) : List AirwaySeg :=
  writeAirwaysLoop rows none "" true 1 1

/-- The airway state machine exactly as the claim words it: keep the
previous row; emit a segment from previous to current exactly when the
current row is not the first, the name equals the previous name, and the
previous description code did not have E as its second character,
incrementing the sequence number on emission; when the previous row was
end-of-route and the name is unchanged, increment the fragment number and
reset the sequence number to 1; on a name change reset both to 1. -/
def specAirwaysLoop : List AirwayRow → Option AirwayRow → Nat → Nat → List AirwaySeg
  | [], _, _, _ => []
  | row :: rest, none, frag, seq => specAirwaysLoop rest (some row) frag seq
  | row :: rest, some p, frag, seq =>
    if row.route_identifier ≠ p.route_identifier then
      specAirwaysLoop rest (some row) 1 1
    else if eorOf p.waypoint_description_code then
      specAirwaysLoop rest (some row) (frag + 1) 1
    else
      mkAirwaySeg p row frag seq :: specAirwaysLoop rest (some row) frag (seq + 1)

/-- The claim-side airway writer. -/
def specAirways (rows : List AirwayRow) : List AirwaySeg :=
  specAirwaysLoop rows none 1 1

/-- A concrete airway source row for the witness scenarios. -/
def mkAwRow (nm : String) (sq : Int) (code : String) (wid : Int) : AirwayRow :=
  { route_identifier := nm, seqno := sq, flightlevel := "B",
    waypoint_description_code := code, waypoint_id := wid,
    direction_restriction := "", minimum_altitude1 := 5000,
    maximum_altitude := 24000, lonx := wid, laty := 0 }

/-- The spec's airway fragment seed scenario: route N1 with two fragments
of two rows each, then route N2 with one fragment. -/
def awRowsSeed : List AirwayRow :=
  [mkAwRow "N1" 1 "EA" 1, mkAwRow "N1" 2 "EE" 2, mkAwRow "N1" 3 "EA" 3,
    mkAwRow "N1" 4 "EE" 4, mkAwRow "N2" 1 "EA" 5, mkAwRow "N2" 2 "EE" 6]

/-! ## ILS feather geometry (DfdCompiler::updateIlsGeometry) -/

/-- Modelled from the spec: nautical miles to meters (unit conversions of
the geo primitives, not under src/). -/
def nmToMeter (nm : ℚ) : ℚ :=
  nm * 1852

/-- Modelled from the spec: feet to meters (unit conversions of the geo
primitives, not under src/). -/
def feetToMeter (ft : ℚ) : ℚ :=
  ft * (3048 / 10000)

/-- The columns of one `ils` row read by the geometry pass. -/
structure IlsRow where
  lonx : ℚ
  laty : ℚ
  loc_heading : ℚ
  loc_width : ℚ
  deriving DecidableEq, Repr

/-- The six geometry columns written back per `ils` row. -/
structure IlsGeometryCols where
  end1 : Pos
  endMid : Pos
  end2 : Pos
  deriving DecidableEq, Repr

/-- The per-row update function of `DfdCompiler::updateIlsGeometry`.
`endpointFn` abstracts `Pos::endpoint` composed with `Pos::normalize` and
`distFn` abstracts `Pos::distanceMeterTo` (geo primitives, not under src/);
`featherLen` is the configured `ILS_FEATHER_LEN_NM`. -/
def updateIlsGeometryRow (endpointFn : Pos → ℚ → ℚ → Pos) (distFn : Pos → Pos → ℚ)
    (featherLen : ℚ) (row : IlsRow) : IlsGeometryCols :=
  let pos : Pos := ⟨row.lonx, row.laty⟩
  let length := nmToMeter featherLen
  let width := row.loc_width
  let heading := opposedCourseDeg row.loc_heading
  let p1 := endpointFn pos length (heading - width / 2)
  let p2 := endpointFn pos length (heading + width / 2)
  let featherWidth := distFn p1 p2
  let pmid := endpointFn pos (length - featherWidth / 2) heading
  { end1 := p1, endMid := pmid, end2 := p2 }

/-- `DfdCompiler::updateIlsGeometry`: the tabular update primitive applied
to every `ils` row (the primitive itself, `SqlUtil::updateColumnInTable`,
is modelled from the spec as a per-row functional update since it is not
under src/). -/
def updateIlsGeometry (endpointFn : Pos → ℚ → ℚ → Pos) (distFn : Pos → Pos → ℚ)
    (featherLen : ℚ) (rows : List IlsRow) : List IlsGeometryCols :=
  rows.map (updateIlsGeometryRow endpointFn distFn featherLen)

/-- The feather polygon exactly as the claim words it: reverse the heading
first; project the two corners from the origin along the reversed heading
minus and plus half the beam width for the feather length; project the
midpoint along the reversed heading for the feather length minus half the
great-circle distance between the two corners. -/
def claimIlsFeather (endpointFn : Pos → ℚ → ℚ → Pos) (distFn : Pos → Pos → ℚ)
    (featherLen : ℚ) (row : IlsRow) : IlsGeometryCols :=
  let origin : Pos := ⟨row.lonx, row.laty⟩
  let revHeading := opposedCourseDeg row.loc_heading
  let corner1 := endpointFn origin (nmToMeter featherLen) (revHeading - row.loc_width / 2)
  let corner2 := endpointFn origin (nmToMeter featherLen) (revHeading + row.loc_width / 2)
  let mid := endpointFn origin
    (nmToMeter featherLen - distFn corner1 corner2 / 2) revHeading
  { end1 := corner1, endMid := mid, end2 := corner2 }

/-! ## Runway writing per airport (DfdCompiler::writeRunwaysForAirport) -/

/-- The airport-level values carried by `writeRunwaysForAirport` and written
by `airportUpdateQuery` at the end (surface counters are derived from these
afterwards). -/
structure RunwayWriteResult where
  numRunways : Nat
  numRunwayIls : Nat
  longestRunwayLength : Int
  longestRunwayWidth : Int
  longestRunwayHeading : ℚ
  airportRect : Rect
  deriving DecidableEq, Repr

/-- The per-pair values of one written runway row that the claims concern:
the two computed endpoint coordinates and headings. -/
structure RunwayOutRow where
  primary_pos : Pos
  secondary_pos : Pos
  heading : ℚ
  opposed_heading : ℚ
  length : Int
  deriving DecidableEq, Repr

/-- One iteration of the runway-pair loop in
`DfdCompiler::writeRunwaysForAirport`: compute the center from the two end
coordinates, magnetic variation there, true headings from the magnetic
bearings, the two endpoint positions from the center at half the runway
length, extend the airport rectangle by both, count the runway, track the
longest runway, and count an ILS end when the primary llz identifier is
empty.  `endpointFn` abstracts `Pos::endpoint` composed with
`Pos::normalize`, `getMagVar` the magnetic model (both outside src/). -/
def writeRunwaysStep (endpointFn : Pos → ℚ → ℚ → Pos) (getMagVar : Pos → ℚ)
    (st : RunwayWriteResult × List RunwayOutRow) (pr : RwRec × RwRec) :
    RunwayWriteResult × List RunwayOutRow :=
  let primaryRec := pr.1
  let secondaryRec := pr.2
  let length := primaryRec.runway_length
  let width := primaryRec.runway_width
  let lonX := (primaryRec.runway_longitude + secondaryRec.runway_longitude) / 2
  let latY := (primaryRec.runway_latitude + secondaryRec.runway_latitude) / 2
  let pos : Pos := ⟨lonX, latY⟩
  let magvar := getMagVar pos
  let heading := normalizeCourse (primaryRec.runway_magnetic_bearing + magvar)
  let opposedHeading := normalizeCourse (secondaryRec.runway_magnetic_bearing + magvar)
  let numIls := if primaryRec.llzStr = "" then st.1.numRunwayIls + 1 else st.1.numRunwayIls
  let longest :=
    if st.1.longestRunwayLength < length then (length, width, heading)
    else (st.1.longestRunwayLength, st.1.longestRunwayWidth, st.1.longestRunwayHeading)
  let lengthMeter := feetToMeter length
  let primaryPos := endpointFn pos (lengthMeter / 2) opposedHeading
  let secondaryPos := endpointFn pos (lengthMeter / 2) heading
  let rect := (st.1.airportRect.extend primaryPos).extend secondaryPos
  ({ numRunways := st.1.numRunways + 1
     numRunwayIls := numIls
     longestRunwayLength := longest.1
     longestRunwayWidth := longest.2.1
     longestRunwayHeading := longest.2.2
     airportRect := rect },
    ⟨primaryPos, secondaryPos, heading, opposedHeading, length⟩ :: st.2)

/-- The loop of `writeRunwaysForAirport` over the runway-end pairs, starting
from the airport rectangle collected in `writeAirports` and zeroed
counters. -/
def writeRunwayPairs (endpointFn : Pos → ℚ → ℚ → Pos) (getMagVar : Pos → ℚ)
    (initRect : Rect) (pairs : List (RwRec × RwRec)) :
    RunwayWriteResult × List RunwayOutRow :=
  pairs.foldl (writeRunwaysStep endpointFn getMagVar)
    ({ numRunways := 0, numRunwayIls := 0, longestRunwayLength := 0,
       longestRunwayWidth := 0, longestRunwayHeading := 0, airportRect := initRect }, [])

/-- `DfdCompiler::writeRunwaysForAirport`: pair the collected runway ends,
then run the write loop. -/
def writeRunwaysForAirport (endpointFn : Pos → ℚ → ℚ → Pos) (getMagVar : Pos → ℚ)
    (initRect : Rect) (runways : List RwRec) : RunwayWriteResult × List RunwayOutRow :=
  writeRunwayPairs endpointFn getMagVar initRect (pairRunways runways)

/-- The initial airport rectangle of `DfdCompiler::writeAirports`: a
degenerate rectangle at the reference point inflated by
`Pos::POS_EPSILON_100M` (about 100 m, constant outside src/) on both axes. -/
def airportInitialRect (eps : ℚ) (refPos : Pos) : Rect :=
  (Rect.single refPos).inflate eps eps

/-- The center position computed for one runway pair. -/
def stepCenter (pr : RwRec × RwRec) : Pos :=
  ⟨(pr.1.runway_longitude + pr.2.runway_longitude) / 2,
    (pr.1.runway_latitude + pr.2.runway_latitude) / 2⟩

/-- The true heading computed for one runway pair. -/
def stepHeading (getMagVar : Pos → ℚ) (pr : RwRec × RwRec) : ℚ :=
  normalizeCourse (pr.1.runway_magnetic_bearing + getMagVar (stepCenter pr))

/-- The opposed true heading computed for one runway pair. -/
def stepOpposedHeading (getMagVar : Pos → ℚ) (pr : RwRec × RwRec) : ℚ :=
  normalizeCourse (pr.2.runway_magnetic_bearing + getMagVar (stepCenter pr))

/-- The primary endpoint computed for one runway pair. -/
def stepPrimaryPos (endpointFn : Pos → ℚ → ℚ → Pos) (getMagVar : Pos → ℚ)
    (pr : RwRec × RwRec) : Pos :=
  endpointFn (stepCenter pr) (feetToMeter (pr.1.runway_length : ℚ) / 2)
    (stepOpposedHeading getMagVar pr)

/-- The secondary endpoint computed for one runway pair. -/
def stepSecondaryPos (endpointFn : Pos → ℚ → ℚ → Pos) (getMagVar : Pos → ℚ)
    (pr : RwRec × RwRec) : Pos :=
  endpointFn (stepCenter pr) (feetToMeter (pr.1.runway_length : ℚ) / 2)
    (stepHeading getMagVar pr)

/-! ## Magnetic variation pass (DfdCompiler::updateMagvar) -/

/-- A positional row of the waypoint or ndb table as read by the magnetic
pass. -/
structure NavPosRow where
  lonx : ℚ
  laty : ℚ
  mag_var : ℚ
  deriving DecidableEq, Repr

/-- Modelled from the spec: `SqlUtil::updateColumnInTable` (not under
src/), the generic tabular update primitive: the row function either
returns the updated row or declines, leaving the row unchanged. -/
def updateColumnInTable {α : Type} (f : α → Option α) (rows : List α) : List α :=
  rows.map (fun r => (f r).getD r)

/-- The update lambda of `DfdCompiler::updateMagvar`: always updates,
binding mag_var to the magnetic model value at (lonx, laty). -/
def magvarUpdateFunc (model : Pos → ℚ) (r : NavPosRow) : Option NavPosRow :=
  some { r with mag_var := model ⟨r.lonx, r.laty⟩ }

/-- `DfdCompiler::updateMagvar`: apply the magnetic update to the waypoint
and ndb tables. -/
def updateMagvar (model : Pos → ℚ) (waypoints ndbs : List NavPosRow) :
    List NavPosRow × List NavPosRow :=
  (updateColumnInTable (magvarUpdateFunc model) waypoints,
    updateColumnInTable (magvarUpdateFunc model) ndbs)

/-! ## METAR index (fs/weather/metarindex.h; implementation not under src/) -/

/-- Modelled from the spec: one METAR index entry. -/
structure MetarData where
  ident : String
  metar : String
  timestamp : Int
  deriving DecidableEq, Repr

/-- Modelled from the spec: MetarIndex::updateOrInsert. -/
def updateOrInsert (idx : List MetarData) (metar ident : String)
    (lastTimestamp : Int) : List MetarData :=
  match idx.find? (fun e => e.ident == ident) with
  | none => idx ++ [⟨ident, metar, lastTimestamp⟩]
  | some e =>
    if e.timestamp < lastTimestamp then
      idx.map (fun x => if x.ident == ident then ⟨ident, metar, lastTimestamp⟩ else x)
    else idx

/-- Modelled from the spec: MetarIndex::read. -/
def metarRead (records : List MetarData) (merge : Bool)
    (current : List MetarData) : List MetarData :=
  records.foldl (fun idx r => updateOrInsert idx r.metar r.ident r.timestamp)
    (if merge then current else [])

/-- The spec's METAR merge seed scenario. -/
def mRecsSeed : List MetarData :=
  [⟨"KAAA", "KAAA 011200Z 10SM", 1200⟩, ⟨"KAAA", "KAAA 011300Z 10SM", 1300⟩]

/-! ## Binary approach record header (fs/bgl/ap/approach.cpp) -/

/-- Modelled from the spec: the fixed ICAO character mapping of
`converter::intToIcao` (not under src/): base-38 digits, where 0 ends the
identifier, 2..11 are the digits 0..9 and 12..37 the letters A..Z. -/
def charOfIcaoCode (c : Nat) : Char :=
  if c = 1 then ' '
  else if 2 ≤ c ∧ c ≤ 11 then Char.ofNat (48 + (c - 2))
  else if 12 ≤ c ∧ c ≤ 37 then Char.ofNat (65 + (c - 12))
  else '?'

/-- The five base-38 digits of a packed ICAO code, most significant
first. -/
def icaoDigits (v : Nat) : List Nat :=
  [v / 38 ^ 4 % 38, v / 38 ^ 3 % 38, v / 38 ^ 2 % 38, v / 38 % 38, v % 38]

/-- Modelled from the spec: `converter::intToIcao` (not under src/), the
fixed decoding of a packed code to an identifier of at most five ICAO
characters. -/
def intToIcao (v : Nat) : String :=
  String.mk (((icaoDigits (v % 38 ^ 5)).dropWhile (fun d => d == 0)).map charOfIcaoCode)

/-- The primary header of a binary approach record as decoded by the
`Approach` constructor.  The three trailing 32-bit floats are kept as raw
little-endian words (their floating-point meaning is outside the shallow
embedding). -/
structure ApproachHeader where
  suffix : Int
  runwayNumber : Nat
  approachType : Nat
  runwayDesignator : Nat
  gpsOverlay : Bool
  numTransitions : Nat
  numLegs : Nat
  numMissedLegs : Nat
  fixType : Nat
  fixIdent : String
  fixRegion : String
  fixAirportIdent : String
  altitudeBits : Nat
  headingBits : Nat
  missedAltitudeBits : Nat
  deriving DecidableEq, Repr

/-- `BinaryStream::readByte`: a signed byte. -/
def readByteSignedAt (bytes : List Nat) (i : Nat) : Option Int :=
  (bytes[i]?).map (fun b => if 128 ≤ b % 256 then (b % 256 : Int) - 256 else (b % 256 : Int))

/-- `BinaryStream::readUInt`: four bytes assembled little-endian (the
spec's byte order for the binary record reader). -/
def readUIntAt (bytes : List Nat) (i : Nat) : Option Nat := do
  let b0 ← bytes[i]?
  let b1 ← bytes[i + 1]?
  let b2 ← bytes[i + 2]?
  let b3 ← bytes[i + 3]?
  pure (b0 + 2 ^ 8 * b1 + 2 ^ 16 * b2 + 2 ^ 24 * b3)

/-- A 32-bit little-endian word from four bytes. -/
def leWord (b0 b1 b2 b3 : Nat) : Nat :=
  b0 + 2 ^ 8 * b1 + 2 ^ 16 * b2 + 2 ^ 24 * b3

/-- The sequential header reads of the `Approach` constructor: suffix,
runway number, packed type flags, counts, packed fix word, packed fix
region and airport word, and the three float words. -/
def approachPrimaryHeader (bytes : List Nat) : Option ApproachHeader := do
  let suffix ← readByteSignedAt bytes 0
  let runwayNumber ← bytes[1]?
  let typeFlags ← bytes[2]?
  let numTransitions ← bytes[3]?
  let numLegs ← bytes[4]?
  let numMissedLegs ← bytes[5]?
  let fixFlags ← readUIntAt bytes 6
  let fixIdentFlags ← readUIntAt bytes 10
  let altitude ← readUIntAt bytes 14
  let heading ← readUIntAt bytes 18
  let missedAltitude ← readUIntAt bytes 22
  pure
    { suffix := suffix
      runwayNumber := runwayNumber
      approachType := typeFlags &&& 0xf
      runwayDesignator := (typeFlags >>> 4) &&& 0x7
      gpsOverlay := (typeFlags &&& 0x80) == 0x80
      numTransitions := numTransitions
      numLegs := numLegs
      numMissedLegs := numMissedLegs
      fixType := fixFlags &&& 0xf
      fixIdent := intToIcao ((fixFlags >>> 5) &&& 0xfffffff)
      fixRegion := intToIcao (fixIdentFlags &&& 0x7ff)
      fixAirportIdent := intToIcao ((fixIdentFlags >>> 11) &&& 0x1fffff)
      altitudeBits := altitude
      headingBits := heading
      missedAltitudeBits := missedAltitude }

/-! ## Approach subrecord traversal (fs/bgl/ap/approach.cpp) -/

/-- The simulator type checked by the approach parser. -/
inductive SimulatorType where
  | msfs
  | fsx
  | p3d
  | xplane
  deriving DecidableEq, Repr

/-- The approach subrecord tags dispatched by the `Approach` constructor:
the leg, missed-leg and transition tags of the legacy and MSFS layout
versions, and everything else as an unknown raw tag. -/
inductive ApprRecordType where
  | legs
  | legsMsfs
  | legsMsfs116
  | legsMsfs118
  | missedLegs
  | missedLegsMsfs
  | missedLegsMsfs116
  | missedLegsMsfs118
  | transition
  | transitionMsfs
  | transitionMsfs116
  | unknown (tag : Nat)
  deriving DecidableEq, Repr

/-- Whether a tag falls into the default (unknown) case of the dispatch. -/
def ApprRecordType.isUnknown : ApprRecordType → Bool
  | .unknown _ => true
  | _ => false

/-- The numeric tag of an unknown record (0 for known tags). -/
def ApprRecordType.rawTag : ApprRecordType → Nat
  | .unknown t => t
  | _ => 0

/-- One well-formed framed child record inside the approach record: its
tag and its payload bytes up to the frame end. -/
structure SubRecord where
  recType : ApprRecordType
  content : List Nat
  deriving DecidableEq, Repr

/-- Log levels of the Qt logging calls. -/
inductive LogLevel where
  | debug
  | warning
  deriving DecidableEq, Repr

/-- One log event emitted while parsing. -/
structure LogEvent where
  level : LogLevel
  tag : Nat
  deriving DecidableEq, Repr

/-- The parsed children of an approach record. -/
structure ApproachChildren (Leg Trans : Type) where
  legs : List Leg
  missedLegs : List Leg
  transitions : List Trans
  deriving DecidableEq, Repr

/-- One iteration of the subrecord loop of the `Approach` constructor:
dispatch on the tag; leg records append to the legs (under the include
filter), missed-leg records to the missed legs, transition records to the
transitions; any other tag is only logged - a warning unless the simulator
is MSFS (in a DEBUG_INFORMATION build the guard is compiled out and the
warning is unconditional) - and the record is skipped; the loop then seeks
to the record end and continues. -/
def approachSubRecordStep {Leg Trans : Type} (sim : SimulatorType)
    (debugInformation includeLeg : Bool) (parseLegs : List Nat → List Leg)
    (parseTrans : ApprRecordType → List Nat → Trans)
    (st : ApproachChildren Leg Trans × List LogEvent) (r : SubRecord) :
    ApproachChildren Leg Trans × List LogEvent :=
  match r.recType with
  | .legs | .legsMsfs | .legsMsfs116 | .legsMsfs118 =>
    if includeLeg then
      ({ st.1 with legs := st.1.legs ++ parseLegs r.content }, st.2)
    else st
  | .missedLegs | .missedLegsMsfs | .missedLegsMsfs116 | .missedLegsMsfs118 =>
    if includeLeg then
      ({ st.1 with missedLegs := st.1.missedLegs ++ parseLegs r.content }, st.2)
    else st
  | .transition | .transitionMsfs | .transitionMsfs116 =>
    ({ st.1 with transitions := st.1.transitions ++ [parseTrans r.recType r.content] }, st.2)
  | .unknown tag =>
    if debugInformation = true ∨ sim ≠ SimulatorType.msfs then
      (st.1, st.2 ++ [⟨LogLevel.warning, tag⟩])
    else st

/-- The subrecord loop of the `Approach` constructor over the well-formed
child frames of the record. -/
def processApproachSubRecords {Leg Trans : Type} (sim : SimulatorType)
    (debugInformation includeLeg : Bool) (parseLegs : List Nat → List Leg)
    (parseTrans : ApprRecordType → List Nat → Trans)
    (children : List SubRecord) : ApproachChildren Leg Trans × List LogEvent :=
  children.foldl (approachSubRecordStep sim debugInformation includeLeg parseLegs parseTrans)
    (⟨[], [], []⟩, [])

/-! ## Theorems -/

theorem opposed_mk : ∀ n, n < 37 → ∀ d ∈ validDesigs,
    opposedRname (mkRwIdent n d) = mkRwIdent (codeOpposedNum n) (claimSwapDesig d) := by
  decide

theorem opposed_claim_below55 : ∀ n, n < 55 → ∀ d ∈ validDesigs,
    opposedRname (mkRwIdent n d) = claimOpposedIdent n d := by
  decide

theorem opposed_invol_mk : ∀ n, n < 37 → 1 ≤ n → ∀ d ∈ validDesigs,
    opposedRname (opposedRname (mkRwIdent n d)) = mkRwIdent n d := by
  decide

theorem opposed_ne_mk : ∀ n, n < 37 → 1 ≤ n → ∀ d ∈ validDesigs,
    opposedRname (mkRwIdent n d) ≠ mkRwIdent n d := by
  decide

theorem codeOpposedNum_bounds : ∀ n, n < 37 → 1 ≤ n →
    1 ≤ codeOpposedNum n ∧ codeOpposedNum n ≤ 36 := by
  decide

theorem claimSwapDesig_mem : ∀ d ∈ validDesigs, claimSwapDesig d ∈ validDesigs := by
  decide

theorem WFIdent.opp (h : WFIdent s) : WFIdent (opposedRname s) := by
  obtain ⟨n, d, h1, h2, hd, rfl⟩ := h
  rw [opposed_mk n (by omega) d hd]
  exact ⟨codeOpposedNum n, claimSwapDesig d,
    (codeOpposedNum_bounds n (by omega) h1).1, (codeOpposedNum_bounds n (by omega) h1).2,
    claimSwapDesig_mem d hd, rfl⟩

theorem WFIdent.opp_invol (h : WFIdent s) : opposedRname (opposedRname s) = s := by
  obtain ⟨n, d, h1, h2, hd, rfl⟩ := h
  exact opposed_invol_mk n (by omega) h1 d hd

theorem WFIdent.opp_ne (h : WFIdent s) : opposedRname s ≠ s := by
  obtain ⟨n, d, h1, h2, hd, rfl⟩ := h
  exact opposed_ne_mk n (by omega) h1 d hd

theorem find?_append_eq {α : Type} (p : α → Bool) (l₁ l₂ : List α) :
    (l₁ ++ l₂).find? p = ((l₁.find? p).orElse (fun _ => l₂.find? p)) := by
  induction l₁ with
  | nil => simp
  | cons a l ih =>
    cases hpa : p a with
    | true => simp [List.find?, hpa]
    | false => simp [List.find?, hpa, ih]

theorem find?_unique_mem {α : Type} {p : α → Bool} {l : List α} {a : α}
    (ha : a ∈ l) (hpa : p a) (huniq : ∀ x ∈ l, p x → x = a) :
    l.find? p = some a := by
  induction l with
  | nil => cases ha
  | cons b l ih =>
    cases hpb : p b with
    | true =>
      have hba : b = a := huniq b (List.mem_cons_self b l) hpb
      subst hba
      simp [List.find?, hpb]
    | false =>
      have ha' : a ∈ l := by
        cases ha with
        | head => rw [hpa] at hpb; cases hpb
        | tail _ h => exact h
      simp only [List.find?, hpb]
      exact ih ha' (fun x hx hpx => huniq x (List.mem_cons_of_mem b hx) hpx)

theorem ident_injOn {l : List RwRec}
    (hnd : (l.map (fun r => r.runway_identifier)).Nodup) :
    ∀ x ∈ l, ∀ y ∈ l, x.runway_identifier = y.runway_identifier → x = y := by
  intro x hx y hy hxy
  exact List.inj_on_of_nodup_map hnd hx hy hxy

theorem pairRunwaysGo_cons (all : List RwRec) (rw : RwRec) (rest : List RwRec)
    (found : List String) :
    pairRunwaysGo all (rw :: rest) found =
      if rw.runway_identifier ∈ found then pairRunwaysGo all rest found
      else
        match all.find?
            (fun orw => orw.runway_identifier == opposedRname rw.runway_identifier) with
        | some orw => (rw, orw) :: pairRunwaysGo all rest
            (opposedRname rw.runway_identifier :: rw.runway_identifier :: found)
        | none => (rw, synthOpposedEnd rw (opposedRname rw.runway_identifier)) ::
            pairRunwaysGo all rest found := rfl

set_option maxHeartbeats 1600000 in
theorem pairRunwaysGo_eq (all : List RwRec)
    (hwf : ∀ r ∈ all, WFRec r)
    (hnd : (all.map (fun r => r.runway_identifier)).Nodup) :
    ∀ (rest pre : List RwRec) (found : List String),
      all = pre ++ rest →
      (∀ s, s ∈ found ↔ foundSpec all pre s) →
      pairRunwaysGo all rest found = rest.filterMap (pairEmit all) := by
  intro rest
  induction rest with
  | nil => intro pre found _ _; rfl
  | cons rw rest ih =>
    intro pre found hall hfound
    have injAll := ident_injOn hnd
    have hrwall : rw ∈ all := by
      rw [hall]; exact List.mem_append_right _ (List.mem_cons_self rw rest)
    have hwfrw := hwf rw hrwall
    have hwfidrw : WFIdent rw.runway_identifier := hwfrw.1
    have hnotpre : ∀ x ∈ pre, x.runway_identifier ≠ rw.runway_identifier := by
      intro x hx hxy
      have h1 : (pre.map (fun r => r.runway_identifier) ++
          rw.runway_identifier :: rest.map (fun r => r.runway_identifier)).Nodup := by
        simpa [hall] using hnd
      rw [List.nodup_append] at h1
      exact h1.2.2 (hxy ▸ List.mem_map_of_mem _ hx) (List.mem_cons_self _ _)
    have hall' : all = (pre ++ [rw]) ++ rest := by simp [hall]
    by_cases hmem : rw.runway_identifier ∈ found
    · -- already consumed: skip, and pairEmit yields none
      obtain ⟨r, hrpre, orw, horwall, horid, hcase⟩ := (hfound _).1 hmem
      have hrall : r ∈ all := by rw [hall]; exact List.mem_append_left _ hrpre
      have hwfr : WFIdent r.runway_identifier := (hwf r hrall).1
      have hident : rw.runway_identifier = orw.runway_identifier := by
        rcases hcase with h | h
        · exact absurd h.symm (hnotpre r hrpre)
        · exact h
      have horw_rw : orw = rw := injAll orw horwall rw hrwall hident.symm
      have hrw_opp : rw.runway_identifier = opposedRname r.runway_identifier := by
        rw [hident, horid]
      have hopp_rw : opposedRname rw.runway_identifier = r.runway_identifier := by
        rw [hrw_opp]; exact hwfr.opp_invol
      have hrne : r.runway_identifier ≠ rw.runway_identifier := by
        rw [hrw_opp]; exact fun h => hwfr.opp_ne h.symm
      -- first find? in pairEmit returns r
      have hfind1 : all.find?
          (fun orw2 => orw2.runway_identifier == opposedRname rw.runway_identifier) = some r := by
        apply find?_unique_mem hrall
        · simp [hopp_rw]
        · intro x hx hpx
          simp only [beq_iff_eq] at hpx
          exact injAll x hx r hrall (by rw [hpx, hopp_rw])
      -- the first-of-both find? returns r as well
      have hfind2 : all.find? (fun x => x.runway_identifier == rw.runway_identifier ||
          x.runway_identifier == r.runway_identifier) = some r := by
        rw [hall, find?_append_eq]
        have hpre : pre.find? (fun x => x.runway_identifier == rw.runway_identifier ||
            x.runway_identifier == r.runway_identifier) = some r := by
          apply find?_unique_mem hrpre
          · simp
          · intro x hx hpx
            simp only [Bool.or_eq_true, beq_iff_eq] at hpx
            rcases hpx with h | h
            · exact absurd h (hnotpre x hx)
            · exact injAll x (by rw [hall]; exact List.mem_append_left _ hx) r hrall h
        simp [hpre]
      have hemit : pairEmit all rw = none := by
        simp only [pairEmit, hfind1, hfind2]
        have : r ≠ rw := fun h => hrne (by rw [h])
        simp [this]
      rw [pairRunwaysGo_cons, if_pos hmem, List.filterMap_cons, hemit]
      apply ih (pre ++ [rw]) found hall'
      intro s
      rw [hfound s]
      constructor
      · rintro ⟨r2, hr2, o2, ho2, hid2, hc2⟩
        exact ⟨r2, List.mem_append_left _ hr2, o2, ho2, hid2, hc2⟩
      · rintro ⟨r2, hr2, o2, ho2, hid2, hc2⟩
        rcases List.mem_append.1 hr2 with h2 | h2
        · exact ⟨r2, h2, o2, ho2, hid2, hc2⟩
        · -- r2 = rw
          have hr2rw : r2 = rw := by
            cases h2 with
            | head => rfl
            | tail _ h => cases h
          subst hr2rw
          have ho2r : o2 = r := by
            apply injAll o2 ho2 r hrall
            rw [hid2, hopp_rw]
          rcases hc2 with h | h
          · exact ⟨r, hrpre, orw, horwall, horid, Or.inr (by rw [h, hident])⟩
          · exact ⟨r, hrpre, orw, horwall, horid, Or.inl (by rw [h, ho2r])⟩
    · -- not yet consumed
      cases hfind : all.find?
          (fun orw2 => orw2.runway_identifier == opposedRname rw.runway_identifier) with
      | some orw =>
        have horwall : orw ∈ all := List.mem_of_find?_eq_some hfind
        have horid : orw.runway_identifier = opposedRname rw.runway_identifier := by
          have := List.find?_some hfind
          simpa [beq_iff_eq] using this
        have hopprw : opposedRname orw.runway_identifier = rw.runway_identifier := by
          rw [horid]; exact hwfidrw.opp_invol
        have hone : orw.runway_identifier ≠ rw.runway_identifier := by
          rw [horid]; exact hwfidrw.opp_ne
        have hnopre : ∀ x ∈ pre, ¬ (x.runway_identifier == rw.runway_identifier ||
            x.runway_identifier == orw.runway_identifier) = true := by
          intro x hx hpx
          simp only [Bool.or_eq_true, beq_iff_eq] at hpx
          rcases hpx with h | h
          · exact hnotpre x hx h
          · -- then orw would be in pre and rw would already be consumed
            have hxorw : x = orw := injAll x (by rw [hall]; exact List.mem_append_left _ hx)
              orw horwall h
            apply hmem
            exact (hfound _).2 ⟨orw, hxorw ▸ hx, rw, hrwall, hopprw.symm ▸ rfl, Or.inr rfl⟩
        have hfind2 : all.find? (fun x => x.runway_identifier == rw.runway_identifier ||
            x.runway_identifier == orw.runway_identifier) = some rw := by
          rw [hall, find?_append_eq]
          have hpre : pre.find? (fun x => x.runway_identifier == rw.runway_identifier ||
              x.runway_identifier == orw.runway_identifier) = none :=
            List.find?_eq_none.2 hnopre
          simp [hpre, List.find?]
        have hemit : pairEmit all rw = some (rw, orw) := by
          simp [pairEmit, hfind, hfind2]
        rw [pairRunwaysGo_cons, if_neg hmem, hfind, List.filterMap_cons, hemit]
        refine congrArg (List.cons (rw, orw)) (ih (pre ++ [rw])
          (opposedRname rw.runway_identifier :: rw.runway_identifier :: found) hall' ?_)
        intro s
        constructor
        · intro hs
          rw [List.mem_cons, List.mem_cons] at hs
          rcases hs with rfl | rfl | hs
          · exact ⟨rw, List.mem_append_right _ (List.mem_cons_self _ _), orw, horwall, horid,
              Or.inr horid.symm⟩
          · exact ⟨rw, List.mem_append_right _ (List.mem_cons_self _ _), orw, horwall, horid,
              Or.inl rfl⟩
          · obtain ⟨r2, hr2, o2, ho2, hid2, hc2⟩ := (hfound s).1 hs
            exact ⟨r2, List.mem_append_left _ hr2, o2, ho2, hid2, hc2⟩
        · rintro ⟨r2, hr2, o2, ho2, hid2, hc2⟩
          rcases List.mem_append.1 hr2 with h2 | h2
          · exact List.mem_cons_of_mem _ (List.mem_cons_of_mem _
              ((hfound s).2 ⟨r2, h2, o2, ho2, hid2, hc2⟩))
          · have hr2rw : r2 = rw := by
              cases h2 with
              | head => rfl
              | tail _ h => cases h
            subst hr2rw
            rcases hc2 with h | h
            · subst h
              exact List.mem_cons_of_mem _ (List.mem_cons_self _ _)
            · rw [h, hid2]
              exact List.mem_cons_self _ _
      | none =>
        have hemit : pairEmit all rw =
            some (rw, synthOpposedEnd rw (opposedRname rw.runway_identifier)) := by
          simp only [pairEmit, hfind]
        have hnoopp : ∀ o ∈ all, o.runway_identifier ≠ opposedRname rw.runway_identifier := by
          intro o ho
          have := List.find?_eq_none.1 hfind o ho
          simpa [beq_iff_eq] using this
        rw [pairRunwaysGo_cons, if_neg hmem, hfind, List.filterMap_cons, hemit]
        refine congrArg (List.cons _) (ih (pre ++ [rw]) found hall' ?_)
        intro s
        rw [hfound s]
        constructor
        · rintro ⟨r2, hr2, o2, ho2, hid2, hc2⟩
          exact ⟨r2, List.mem_append_left _ hr2, o2, ho2, hid2, hc2⟩
        · rintro ⟨r2, hr2, o2, ho2, hid2, hc2⟩
          rcases List.mem_append.1 hr2 with h2 | h2
          · exact ⟨r2, h2, o2, ho2, hid2, hc2⟩
          · have hr2rw : r2 = rw := by
              cases h2 with
              | head => rfl
              | tail _ h => cases h
            subst hr2rw
            exact absurd hid2 (hnoopp o2 ho2)

theorem pairRunways_eq_filterMap (all : List RwRec) (h : WFList all) :
    pairRunways all = all.filterMap (pairEmit all) := by
  apply pairRunwaysGo_eq all h.1 h.2 all [] []
  · rfl
  · intro s
    simp [foundSpec]

/-- C1.  The claim as frozen is false: its opposite-number formula
`(n + 18) mod 36` (0 remapped to 36) disagrees with the code for two-digit
numbers from 55 on.  For the well-formed input identifier `RW55` the code
computes `RW37` (it subtracts 36 only once) while the claim's formula gives
`(55 + 18) mod 36 = 1`, i.e. `RW01`. -/
theorem pairRunways_opposed_counterexample :
    opposedRname (mkRwIdent 55 "") = "RW37" ∧ claimOpposedIdent 55 "" = "RW01" ∧
      opposedRname (mkRwIdent 55 "") ≠ claimOpposedIdent 55 "" := by
  refine ⟨by decide, by decide, by decide⟩

/-- C1 (amended).  For runway numbers up to 54 the pairer's canonical
opposite identifier is `(n + 18) mod 36` with 0 remapped to 36, zero-padded,
with L and R swapped and C or the empty designator unchanged (from 55 on the
code subtracts 36 only once); and on a well-formed input set (distinct
identifiers, numbers 1..36) the emitted pair list is exactly: for each end
in scan order, a pair of two source ends when an end with the canonical
opposite identifier exists and the end was not already consumed by an
earlier pairing (that is, the end precedes its opposite), and a stub pair
otherwise. -/
theorem pairRunways_pairs_by_opposed_ident :
    (∀ n, n ≤ 54 → ∀ d ∈ validDesigs,
      opposedRname (mkRwIdent n d) = claimOpposedIdent n d) ∧
    (∀ all : List RwRec, WFList all →
      pairRunways all = all.filterMap (pairEmit all)) := by
  constructor
  · intro n hn d hd
    exact opposed_claim_below55 n (by omega) d hd
  · intro all h
    exact pairRunways_eq_filterMap all h

/-- Witness for C1 at concrete inputs: the identifier arithmetic at `RW13`
and the spec's seed pairing scenario RW13L / RW31R, which produces exactly
one pair and no stub. -/
theorem pairRunways_pairs_by_opposed_ident_witness :
    (13 ≤ 54 ∧ opposedRname (mkRwIdent 13 "L") = claimOpposedIdent 13 "L") ∧
    (WFList [rwEnd13L, rwEnd31R] ∧
      pairRunways [rwEnd13L, rwEnd31R] = [(rwEnd13L, rwEnd31R)]) := by
  have hwf : WFList [rwEnd13L, rwEnd31R] := by
    constructor
    · intro r hr
      rw [List.mem_cons, List.mem_cons] at hr
      rcases hr with rfl | rfl | h
      · exact ⟨⟨13, "L", by decide, by decide, by decide, by decide⟩, rfl⟩
      · exact ⟨⟨31, "R", by decide, by decide, by decide, by decide⟩, rfl⟩
      · cases h
    · decide
  refine ⟨⟨by decide, pairRunways_pairs_by_opposed_ident.1 13 (by decide) "L" (by decide)⟩,
    hwf, ?_⟩
  have h := pairRunways_pairs_by_opposed_ident.2 [rwEnd13L, rwEnd31R] hwf
  exact h.trans (by decide)

/-- C3.  If an end's canonical opposite identifier is absent from the
airport's input set, the pairer emits exactly one pair for that end: the
end itself together with a synthesized copy whose identifier is the
canonical opposite, displaced threshold 0, ILS identifier null, true
bearing the opposed course, and closed flag set. -/
theorem pairRunways_synthesizes_closed_stub (all : List RwRec) (hwf : WFList all)
    (rw : RwRec) (hmem : rw ∈ all)
    (habs : ∀ o ∈ all, o.runway_identifier ≠ opposedRname rw.runway_identifier) :
    (rw, closedStub rw) ∈ pairRunways all ∧
    (closedStub rw).runway_identifier = opposedRname rw.runway_identifier ∧
    (closedStub rw).displaced_threshold_distance = 0 ∧
    (closedStub rw).llz_identifier = none ∧
    (closedStub rw).runway_true_bearing = opposedCourseDeg rw.runway_true_bearing ∧
    (closedStub rw).is_closed = true ∧
    ∀ p ∈ pairRunways all, (p.1 = rw ∨ p.2 = rw) → p = (rw, closedStub rw) := by
  have hfindnone : all.find?
      (fun orw => orw.runway_identifier == opposedRname rw.runway_identifier) = none := by
    apply List.find?_eq_none.2
    intro o ho
    simpa [beq_iff_eq] using habs o ho
  have hemit : pairEmit all rw = some (rw, closedStub rw) := by
    simp only [pairEmit, hfindnone, closedStub]
  rw [pairRunways_eq_filterMap all hwf]
  refine ⟨List.mem_filterMap.2 ⟨rw, hmem, hemit⟩, rfl, rfl, rfl, rfl, rfl, ?_⟩
  intro p hp hrw
  obtain ⟨a, hamem, haemit⟩ := List.mem_filterMap.1 hp
  have hwfa : WFIdent a.runway_identifier := (hwf.1 a hamem).1
  cases hfa : all.find?
      (fun orw => orw.runway_identifier == opposedRname a.runway_identifier) with
  | some orw =>
    have horwall : orw ∈ all := List.mem_of_find?_eq_some hfa
    have horid : orw.runway_identifier = opposedRname a.runway_identifier := by
      have := List.find?_some hfa
      simpa [beq_iff_eq] using this
    simp only [pairEmit, hfa] at haemit
    by_cases hcond : all.find? (fun x => x.runway_identifier == a.runway_identifier ||
        x.runway_identifier == orw.runway_identifier) = some a
    · rw [if_pos hcond] at haemit
      have hpa : p = (a, orw) := by
        exact (Option.some_injective _ haemit).symm
      subst hpa
      rcases hrw with h | h
      · simp only at h
        subst h
        rw [hfa] at hfindnone
        cases hfindnone
      · simp only at h
        subst h
        exfalso
        apply habs a hamem
        have : opposedRname (opposedRname a.runway_identifier) = a.runway_identifier :=
          hwfa.opp_invol
        rw [← horid] at this
        rw [← this]
    · rw [if_neg hcond] at haemit
      cases haemit
  | none =>
    simp only [pairEmit, hfa] at haemit
    have hpa : p = (a, synthOpposedEnd a (opposedRname a.runway_identifier)) :=
      (Option.some_injective _ haemit).symm
    subst hpa
    rcases hrw with h | h
    · simp only at h
      subst h
      rfl
    · simp only at h
      exfalso
      have hclosed : (synthOpposedEnd a (opposedRname a.runway_identifier)).is_closed = true :=
        rfl
      rw [h] at hclosed
      rw [(hwf.1 rw hmem).2] at hclosed
      cases hclosed

/-- Witness for C3: the spec's orphan seed scenario, a single `RW09` end
with true bearing 88 whose synthesized `RW27` stub carries bearing 268 and
the closed flag. -/
theorem pairRunways_synthesizes_closed_stub_witness :
    (rwEnd09, closedStub rwEnd09) ∈ pairRunways [rwEnd09] ∧
      (closedStub rwEnd09).runway_identifier = "RW27" ∧
      (closedStub rwEnd09).runway_true_bearing = 268 ∧
      (closedStub rwEnd09).is_closed = true := by
  have hwf : WFList [rwEnd09] := by
    constructor
    · intro r hr
      rw [List.mem_cons] at hr
      rcases hr with rfl | h
      · exact ⟨⟨9, "", by decide, by decide, by decide, by decide⟩, rfl⟩
      · cases h
    · decide
  have h := pairRunways_synthesizes_closed_stub [rwEnd09] hwf rwEnd09
    (List.mem_cons_self _ _) (by decide)
  refine ⟨h.1, by decide, ?_, by decide⟩
  show opposedCourseDeg rwEnd09.runway_true_bearing = 268
  rw [opposedCourseDeg, normalizeCourse]
  norm_num [rwEnd09]

theorem Rect.extend_containsPos (r : Rect) (p : Pos) : (r.extend p).containsPos p := by
  refine ⟨min_le_right _ _, le_max_right _ _, min_le_right _ _, le_max_right _ _⟩

theorem Rect.extend_mono_pos (r : Rect) (p q : Pos) (h : r.containsPos p) :
    (r.extend q).containsPos p := by
  obtain ⟨h1, h2, h3, h4⟩ := h
  exact ⟨le_trans (min_le_left _ _) h1, le_trans h2 (le_max_left _ _),
    le_trans (min_le_left _ _) h3, le_trans h4 (le_max_left _ _)⟩

theorem Rect.extend_mono_rect (r s : Rect) (p : Pos) (h : r.containsRect s) :
    (r.extend p).containsRect s := by
  obtain ⟨h1, h2, h3, h4⟩ := h
  exact ⟨le_trans (min_le_left _ _) h1, le_trans h2 (le_max_left _ _),
    le_trans (min_le_left _ _) h3, le_trans h4 (le_max_left _ _)⟩

theorem writeAirwaysLoop_eq_spec :
    ∀ (rows : List AirwayRow) (p : AirwayRow) (frag seq : Nat),
      (∀ r ∈ rows, r.route_identifier ≠ "") → p.route_identifier ≠ "" →
      writeAirwaysLoop rows (some p) p.route_identifier
        (eorOf p.waypoint_description_code) frag seq =
      specAirwaysLoop rows (some p) frag seq := by
  intro rows
  induction rows with
  | nil => intro p frag seq _ _; rfl
  | cons row rest ih =>
    intro p frag seq hne hp
    have hrow : row.route_identifier ≠ "" := hne row (List.mem_cons_self _ _)
    have hne2 : ∀ r ∈ rest, r.route_identifier ≠ "" :=
      fun r hr => hne r (List.mem_cons_of_mem _ hr)
    have hln : (p.route_identifier != "") = true := by simpa [bne_iff_ne] using hp
    by_cases hnc : row.route_identifier = p.route_identifier
    · have hbnef : (row.route_identifier != p.route_identifier) = false := by
        simp [hnc]
      by_cases heor : eorOf p.waypoint_description_code = true
      · rw [show writeAirwaysLoop (row :: rest) (some p) p.route_identifier
              (eorOf p.waypoint_description_code) frag seq =
            writeAirwaysLoop rest (some row) row.route_identifier
              (eorOf row.waypoint_description_code) (frag + 1) 1 by
          simp [writeAirwaysLoop, hln, hbnef, heor]]
        rw [show specAirwaysLoop (row :: rest) (some p) frag seq =
            specAirwaysLoop rest (some row) (frag + 1) 1 by
          simp only [specAirwaysLoop]
          rw [if_neg (not_not_intro hnc), if_pos heor]]
        exact ih row (frag + 1) 1 hne2 hrow
      · have heorf : eorOf p.waypoint_description_code = false := by
          simpa using heor
        rw [show writeAirwaysLoop (row :: rest) (some p) p.route_identifier
              (eorOf p.waypoint_description_code) frag seq =
            mkAirwaySeg p row frag seq ::
              writeAirwaysLoop rest (some row) row.route_identifier
                (eorOf row.waypoint_description_code) frag (seq + 1) by
          simp [writeAirwaysLoop, hln, hbnef, heorf]]
        rw [show specAirwaysLoop (row :: rest) (some p) frag seq =
            mkAirwaySeg p row frag seq :: specAirwaysLoop rest (some row) frag (seq + 1) by
          simp only [specAirwaysLoop]
          rw [if_neg (not_not_intro hnc), if_neg heor]]
        exact congrArg (List.cons _) (ih row frag (seq + 1) hne2 hrow)
    · have hbne : (row.route_identifier != p.route_identifier) = true := by
        simpa [bne_iff_ne] using hnc
      rw [show writeAirwaysLoop (row :: rest) (some p) p.route_identifier
            (eorOf p.waypoint_description_code) frag seq =
          writeAirwaysLoop rest (some row) row.route_identifier
            (eorOf row.waypoint_description_code) 1 1 by
        simp [writeAirwaysLoop, hln, hbne]]
      rw [show specAirwaysLoop (row :: rest) (some p) frag seq =
          specAirwaysLoop rest (some row) 1 1 by
        simp only [specAirwaysLoop]
        rw [if_pos hnc]]
      exact ih row 1 1 hne2 hrow

theorem writeAirways_eq_specAirways (rows : List AirwayRow)
    (hne : ∀ r ∈ rows, r.route_identifier ≠ "") :
    writeAirways rows = specAirways rows := by
  cases rows with
  | nil => rfl
  | cons r0 rest =>
    have hr0 : r0.route_identifier ≠ "" := hne r0 (List.mem_cons_self _ _)
    have hne2 : ∀ r ∈ rest, r.route_identifier ≠ "" :=
      fun r hr => hne r (List.mem_cons_of_mem _ hr)
    rw [show writeAirways (r0 :: rest) =
        writeAirwaysLoop rest (some r0) r0.route_identifier
          (eorOf r0.waypoint_description_code) 1 1 by
      simp [writeAirways, writeAirwaysLoop]]
    rw [show specAirways (r0 :: rest) = specAirwaysLoop rest (some r0) 1 1 from rfl]
    exact writeAirwaysLoop_eq_spec rest r0 1 1 hne2 hr0

theorem specAirwaysLoop_name_count :
    ∀ (rows : List AirwayRow) (p : AirwayRow) (frag seq : Nat) (nm : String),
      rows.countP (fun r => r.route_identifier == nm) +
        (if p.route_identifier = nm then 1 else 0) ≤ 1 →
      ∀ seg ∈ specAirwaysLoop rows (some p) frag seq, seg.airway_name ≠ nm := by
  intro rows
  induction rows with
  | nil => intro p frag seq nm _ seg hseg; cases hseg
  | cons row rest ih =>
    intro p frag seq nm hcount seg hseg
    have hcnt : (row :: rest).countP (fun r => r.route_identifier == nm) =
        rest.countP (fun r => r.route_identifier == nm) +
          (if row.route_identifier = nm then 1 else 0) := by
      rw [List.countP_cons]
      by_cases h : row.route_identifier = nm <;> simp [h]
    by_cases hnc : row.route_identifier ≠ p.route_identifier
    · rw [show specAirwaysLoop (row :: rest) (some p) frag seq =
          specAirwaysLoop rest (some row) 1 1 by
        simp only [specAirwaysLoop]
        rw [if_pos hnc]] at hseg
      apply ih row 1 1 nm ?_ seg hseg
      rw [hcnt] at hcount
      omega
    · push_neg at hnc
      by_cases heor : eorOf p.waypoint_description_code = true
      · rw [show specAirwaysLoop (row :: rest) (some p) frag seq =
            specAirwaysLoop rest (some row) (frag + 1) 1 by
          simp only [specAirwaysLoop]
          rw [if_neg (not_not_intro hnc), if_pos heor]] at hseg
        apply ih row (frag + 1) 1 nm ?_ seg hseg
        rw [hcnt] at hcount
        omega
      · rw [show specAirwaysLoop (row :: rest) (some p) frag seq =
            mkAirwaySeg p row frag seq :: specAirwaysLoop rest (some row) frag (seq + 1) by
          simp only [specAirwaysLoop]
          rw [if_neg (not_not_intro hnc), if_neg heor]] at hseg
        rcases List.mem_cons.1 hseg with rfl | hseg2
        · intro habs
          have hpnm : p.route_identifier = nm := habs
          have hrownm : row.route_identifier = nm := by rw [hnc, hpnm]
          rw [hcnt, if_pos hrownm] at hcount
          rw [if_pos hpnm] at hcount
          omega
        · apply ih row frag (seq + 1) nm ?_ seg hseg2
          rw [hcnt] at hcount
          omega

/-- C2.  Scanning airway rows in order (route names taken non-empty, the
code's empty-last-name test being its first-iteration marker), the airway
writer behaves exactly as the claim's state machine: a segment from the
previous to the current row is emitted exactly when the row is not the
first, the name matches the previous row, and the previous description code
was not end-of-route; the sequence number increments on each emission; a
new fragment (sequence 1, fragment incremented) starts after an end-of-route
row without name change; both counters reset to 1 on a name change.  In
particular a single-row input emits nothing and a route identifier occurring
in at most one row never names an emitted segment. -/
theorem writeAirways_segment_emission (rows : List AirwayRow)
    (hne : ∀ r ∈ rows, r.route_identifier ≠ "") :
    writeAirways rows = specAirways rows ∧
    (∀ row : AirwayRow, writeAirways [row] = []) ∧
    (∀ nm, rows.countP (fun r => r.route_identifier == nm) ≤ 1 →
      ∀ seg ∈ writeAirways rows, seg.airway_name ≠ nm) := by
  refine ⟨writeAirways_eq_specAirways rows hne, fun row => rfl, ?_⟩
  intro nm hc seg hseg
  rw [writeAirways_eq_specAirways rows hne] at hseg
  cases rows with
  | nil => cases hseg
  | cons r0 rest =>
    rw [show specAirways (r0 :: rest) = specAirwaysLoop rest (some r0) 1 1 from rfl] at hseg
    apply specAirwaysLoop_name_count rest r0 1 1 nm ?_ seg hseg
    rw [List.countP_cons] at hc
    by_cases h : r0.route_identifier = nm
    · simp only [h] at hc ⊢
      simpa using hc
    · have hbf : (r0.route_identifier == nm) = false := by simpa using h
      rw [hbf] at hc
      rw [if_neg h]
      omega

/-- Witness for C2 on the spec's seed scenario: three segments, with the
expected names, fragment and sequence numbers and waypoint links, and a
single-row input emitting nothing. -/
theorem writeAirways_segment_emission_witness :
    writeAirways awRowsSeed = specAirways awRowsSeed ∧
    (writeAirways awRowsSeed).map
        (fun s => (s.airway_name, s.airway_fragment_no, s.sequence_no,
          s.from_waypoint_id, s.to_waypoint_id)) =
      [("N1", 1, 1, 1, 2), ("N1", 2, 1, 3, 4), ("N2", 1, 1, 5, 6)] ∧
    writeAirways [mkAwRow "A1" 1 "EA" 1] = [] := by
  have h := writeAirways_segment_emission awRowsSeed (by decide)
  exact ⟨h.1, by decide, h.2.1 _⟩

/-- C4.  For every ILS row the geometry pass writes the three feather
points exactly as described: heading reversed first, corners projected at
the reversed heading minus and plus half the width for the feather length,
and the midpoint projected along the reversed heading for the length minus
half the distance between the corners. -/
theorem updateIlsGeometry_feather (endpointFn : Pos → ℚ → ℚ → Pos)
    (distFn : Pos → Pos → ℚ) (featherLen : ℚ) (rows : List IlsRow) :
    updateIlsGeometry endpointFn distFn featherLen rows =
      rows.map (claimIlsFeather endpointFn distFn featherLen) := by
  unfold updateIlsGeometry
  apply List.map_congr_left
  intro row _
  rfl

theorem Rect.containsRect_refl (r : Rect) : r.containsRect r :=
  ⟨le_refl _, le_refl _, le_refl _, le_refl _⟩

theorem Rect.containsRect_trans {r s t : Rect} (h1 : r.containsRect s)
    (h2 : s.containsRect t) : r.containsRect t :=
  ⟨le_trans h1.1 h2.1, le_trans h2.2.1 h1.2.1, le_trans h1.2.2.1 h2.2.2.1,
    le_trans h2.2.2.2 h1.2.2.2⟩

theorem Rect.containsPos_of_containsRect {r s : Rect} {p : Pos}
    (h1 : r.containsRect s) (h2 : s.containsPos p) : r.containsPos p :=
  ⟨le_trans h1.1 h2.1, le_trans h2.2.1 h1.2.1, le_trans h1.2.2.1 h2.2.2.1,
    le_trans h2.2.2.2 h1.2.2.2⟩

theorem writeRunwaysStep_rect (endpointFn : Pos → ℚ → ℚ → Pos) (getMagVar : Pos → ℚ)
    (st : RunwayWriteResult) (rows : List RunwayOutRow) (pr : RwRec × RwRec) :
    (writeRunwaysStep endpointFn getMagVar (st, rows) pr).1.airportRect =
      (st.airportRect.extend (stepPrimaryPos endpointFn getMagVar pr)).extend
        (stepSecondaryPos endpointFn getMagVar pr) := rfl

theorem writeRunwaysStep_rows (endpointFn : Pos → ℚ → ℚ → Pos) (getMagVar : Pos → ℚ)
    (st : RunwayWriteResult) (rows : List RunwayOutRow) (pr : RwRec × RwRec) :
    (writeRunwaysStep endpointFn getMagVar (st, rows) pr).2 =
      ⟨stepPrimaryPos endpointFn getMagVar pr, stepSecondaryPos endpointFn getMagVar pr,
        stepHeading getMagVar pr, stepOpposedHeading getMagVar pr,
        pr.1.runway_length⟩ :: rows := rfl

theorem writeRunwayPairs_fold_invariant (endpointFn : Pos → ℚ → ℚ → Pos)
    (getMagVar : Pos → ℚ) :
    ∀ (pairs : List (RwRec × RwRec)) (st : RunwayWriteResult) (rows : List RunwayOutRow),
      (∀ r ∈ rows, st.airportRect.containsPos r.primary_pos ∧
        st.airportRect.containsPos r.secondary_pos) →
      (pairs.foldl (writeRunwaysStep endpointFn getMagVar)
          (st, rows)).1.airportRect.containsRect st.airportRect ∧
      ∀ r ∈ (pairs.foldl (writeRunwaysStep endpointFn getMagVar) (st, rows)).2,
        (pairs.foldl (writeRunwaysStep endpointFn getMagVar)
            (st, rows)).1.airportRect.containsPos r.primary_pos ∧
        (pairs.foldl (writeRunwaysStep endpointFn getMagVar)
            (st, rows)).1.airportRect.containsPos r.secondary_pos := by
  intro pairs
  induction pairs with
  | nil =>
    intro st rows hrows
    exact ⟨Rect.containsRect_refl _, hrows⟩
  | cons pr rest ih =>
    intro st rows hrows
    rw [List.foldl_cons]
    have hstep : writeRunwaysStep endpointFn getMagVar (st, rows) pr =
        ((writeRunwaysStep endpointFn getMagVar (st, rows) pr).1,
          (writeRunwaysStep endpointFn getMagVar (st, rows) pr).2) := rfl
    rw [hstep, writeRunwaysStep_rows]
    have hrect := writeRunwaysStep_rect endpointFn getMagVar st rows pr
    have hnewrows : ∀ r ∈ (⟨stepPrimaryPos endpointFn getMagVar pr,
        stepSecondaryPos endpointFn getMagVar pr, stepHeading getMagVar pr,
        stepOpposedHeading getMagVar pr, pr.1.runway_length⟩ : RunwayOutRow) :: rows,
        (writeRunwaysStep endpointFn getMagVar (st, rows) pr).1.airportRect.containsPos
          r.primary_pos ∧
        (writeRunwaysStep endpointFn getMagVar (st, rows) pr).1.airportRect.containsPos
          r.secondary_pos := by
      intro r hr
      rw [hrect]
      rcases List.mem_cons.1 hr with rfl | hr2
      · exact ⟨Rect.extend_mono_pos _ _ _ (Rect.extend_containsPos _ _),
          Rect.extend_containsPos _ _⟩
      · obtain ⟨h1, h2⟩ := hrows r hr2
        exact ⟨Rect.extend_mono_pos _ _ _ (Rect.extend_mono_pos _ _ _ h1),
          Rect.extend_mono_pos _ _ _ (Rect.extend_mono_pos _ _ _ h2)⟩
    obtain ⟨hsub, hall⟩ := ih (writeRunwaysStep endpointFn getMagVar (st, rows) pr).1
      (⟨stepPrimaryPos endpointFn getMagVar pr, stepSecondaryPos endpointFn getMagVar pr,
        stepHeading getMagVar pr, stepOpposedHeading getMagVar pr,
        pr.1.runway_length⟩ :: rows) hnewrows
    refine ⟨?_, hall⟩
    apply Rect.containsRect_trans hsub
    rw [hrect]
    exact Rect.extend_mono_rect _ _ _ (Rect.extend_mono_rect _ _ _
      (Rect.containsRect_refl _))

/-- C5.  The airport rectangle written by the runway pass starts as the
inflated square around the reference point (about 100 m for the
`POS_EPSILON_100M` inflation) and, being only ever extended, the final
rectangle contains that square, the reference point, and both computed
endpoint positions of every runway written for the airport. -/
theorem airportRect_contains_runway_endpoints (endpointFn : Pos → ℚ → ℚ → Pos)
    (getMagVar : Pos → ℚ) (eps : ℚ) (refPos : Pos) (runways : List RwRec) :
    (writeRunwaysForAirport endpointFn getMagVar (airportInitialRect eps refPos)
        runways).1.airportRect.containsRect (airportInitialRect eps refPos) ∧
    (0 ≤ eps →
      (writeRunwaysForAirport endpointFn getMagVar (airportInitialRect eps refPos)
          runways).1.airportRect.containsPos refPos) ∧
    ∀ r ∈ (writeRunwaysForAirport endpointFn getMagVar (airportInitialRect eps refPos)
        runways).2,
      (writeRunwaysForAirport endpointFn getMagVar (airportInitialRect eps refPos)
          runways).1.airportRect.containsPos r.primary_pos ∧
      (writeRunwaysForAirport endpointFn getMagVar (airportInitialRect eps refPos)
          runways).1.airportRect.containsPos r.secondary_pos := by
  have hinv := writeRunwayPairs_fold_invariant endpointFn getMagVar (pairRunways runways)
    { numRunways := 0, numRunwayIls := 0, longestRunwayLength := 0,
      longestRunwayWidth := 0, longestRunwayHeading := 0,
      airportRect := airportInitialRect eps refPos } []
    (by intro r hr; cases hr)
  refine ⟨hinv.1, fun heps => ?_, hinv.2⟩
  apply Rect.containsPos_of_containsRect hinv.1
  have hc : (airportInitialRect eps refPos).containsPos refPos := by
    simp only [airportInitialRect, Rect.single, Rect.inflate, Rect.containsPos]
    refine ⟨by linarith, by linarith, by linarith, by linarith⟩
  exact hc

/-- Witness for C5: a single `RW09` end (whose opposite gets synthesized),
a constant endpoint function, reference point at the origin, inflation 1;
the final rectangle is computed explicitly and contains the initial square
and the endpoint. -/
theorem airportRect_contains_runway_endpoints_witness :
    ((writeRunwaysForAirport (fun _ _ _ => (⟨3, 4⟩ : Pos)) (fun _ => 0)
        (airportInitialRect 1 ⟨0, 0⟩) [rwEnd09]).1.airportRect.containsRect
      (airportInitialRect 1 ⟨0, 0⟩)) ∧
    ((writeRunwaysForAirport (fun _ _ _ => (⟨3, 4⟩ : Pos)) (fun _ => 0)
        (airportInitialRect 1 ⟨0, 0⟩) [rwEnd09]).1.airportRect.containsPos ⟨0, 0⟩) ∧
    ((writeRunwaysForAirport (fun _ _ _ => (⟨3, 4⟩ : Pos)) (fun _ => 0)
        (airportInitialRect 1 ⟨0, 0⟩) [rwEnd09]).1.airportRect =
      ⟨-1, 4, 3, -1⟩) := by
  have h := airportRect_contains_runway_endpoints (fun _ _ _ => (⟨3, 4⟩ : Pos))
    (fun _ => 0) 1 ⟨0, 0⟩ [rwEnd09]
  refine ⟨h.1, h.2.1 (by norm_num), ?_⟩
  have hr : (writeRunwaysForAirport (fun _ _ _ => (⟨3, 4⟩ : Pos)) (fun _ => 0)
      (airportInitialRect 1 ⟨0, 0⟩) [rwEnd09]).1.airportRect =
      ((airportInitialRect 1 ⟨0, 0⟩).extend ⟨3, 4⟩).extend ⟨3, 4⟩ := rfl
  rw [hr]
  show Rect.mk _ _ _ _ = Rect.mk _ _ _ _
  norm_num [airportInitialRect, Rect.single, Rect.inflate, Rect.extend, min_def, max_def]

theorem writeRunwaysStep_ils_count (endpointFn : Pos → ℚ → ℚ → Pos)
    (getMagVar : Pos → ℚ) (st : RunwayWriteResult) (rows : List RunwayOutRow)
    (pr : RwRec × RwRec) :
    (writeRunwaysStep endpointFn getMagVar (st, rows) pr).1.numRunwayIls =
      if pr.1.llzStr = "" then st.numRunwayIls + 1 else st.numRunwayIls := rfl

theorem writeRunwayPairs_ils_count (endpointFn : Pos → ℚ → ℚ → Pos)
    (getMagVar : Pos → ℚ) :
    ∀ (pairs : List (RwRec × RwRec)) (st : RunwayWriteResult) (rows : List RunwayOutRow),
      (pairs.foldl (writeRunwaysStep endpointFn getMagVar) (st, rows)).1.numRunwayIls =
        st.numRunwayIls + pairs.countP (fun pr => pr.1.llzStr == "") := by
  intro pairs
  induction pairs with
  | nil => intro st rows; simp
  | cons pr rest ih =>
    intro st rows
    rw [List.foldl_cons]
    have hstep : writeRunwaysStep endpointFn getMagVar (st, rows) pr =
        ((writeRunwaysStep endpointFn getMagVar (st, rows) pr).1,
          (writeRunwaysStep endpointFn getMagVar (st, rows) pr).2) := rfl
    rw [hstep, ih, writeRunwaysStep_ils_count, List.countP_cons]
    by_cases h : pr.1.llzStr = ""
    · simp [h]
      omega
    · simp [h]

/-- C10.  The num_runway_end_ils value written to the airport table is the
number of runway pairs whose primary end carries an empty llz identifier
(pairs with a non-empty primary ILS identifier are not counted), and the
secondary ends never influence the count. -/
theorem numRunwayEndIls_counts_empty_primary_llz (endpointFn : Pos → ℚ → ℚ → Pos)
    (getMagVar : Pos → ℚ) (initRect : Rect) (runways : List RwRec) :
    ((writeRunwaysForAirport endpointFn getMagVar initRect runways).1.numRunwayIls =
      ((pairRunways runways).filter (fun pr => pr.1.llzStr == "")).length) ∧
    ∀ (pairs : List (RwRec × RwRec)) (f : RwRec × RwRec → RwRec),
      (writeRunwayPairs endpointFn getMagVar initRect
          (pairs.map (fun pr => (pr.1, f pr)))).1.numRunwayIls =
        (writeRunwayPairs endpointFn getMagVar initRect pairs).1.numRunwayIls := by
  constructor
  · rw [show writeRunwaysForAirport endpointFn getMagVar initRect runways =
        writeRunwayPairs endpointFn getMagVar initRect (pairRunways runways) from rfl]
    rw [writeRunwayPairs, writeRunwayPairs_ils_count]
    rw [List.countP_eq_length_filter]
    simp
  · intro pairs f
    rw [writeRunwayPairs, writeRunwayPairs, writeRunwayPairs_ils_count,
      writeRunwayPairs_ils_count, List.countP_map]
    rfl

/-- C6.  After the magnetic pass every row of the designated tables
(waypoint and ndb) carries exactly the model's value at its own
(lonx, laty) position, and the pass changes no positions. -/
theorem updateMagvar_sets_model_value (model : Pos → ℚ)
    (waypoints ndbs : List NavPosRow) :
    (∀ r ∈ (updateMagvar model waypoints ndbs).1, r.mag_var = model ⟨r.lonx, r.laty⟩) ∧
    (∀ r ∈ (updateMagvar model waypoints ndbs).2, r.mag_var = model ⟨r.lonx, r.laty⟩) ∧
    (updateMagvar model waypoints ndbs).1.map (fun r => (r.lonx, r.laty)) =
      waypoints.map (fun r => (r.lonx, r.laty)) ∧
    (updateMagvar model waypoints ndbs).2.map (fun r => (r.lonx, r.laty)) =
      ndbs.map (fun r => (r.lonx, r.laty)) := by
  refine ⟨?_, ?_, ?_, ?_⟩
  · intro r hr
    obtain ⟨a, _, rfl⟩ := List.mem_map.1 hr
    rfl
  · intro r hr
    obtain ⟨a, _, rfl⟩ := List.mem_map.1 hr
    rfl
  · show (waypoints.map _).map _ = _
    rw [List.map_map]
    rfl
  · show (ndbs.map _).map _ = _
    rw [List.map_map]
    rfl

/-- Witness for C6 at a concrete model and two one-row tables. -/
theorem updateMagvar_sets_model_value_witness :
    (⟨10, 20, 10⟩ : NavPosRow) ∈
      (updateMagvar (fun p => p.lonx) [⟨10, 20, 0⟩] [⟨4, 3, 9⟩]).1 ∧
    (⟨10, 20, 10⟩ : NavPosRow).mag_var = (fun p : Pos => p.lonx) ⟨10, 20⟩ := by
  have hmem : (⟨10, 20, 10⟩ : NavPosRow) ∈
      (updateMagvar (fun p => p.lonx) [⟨10, 20, 0⟩] [⟨4, 3, 9⟩]).1 := by decide
  exact ⟨hmem, (updateMagvar_sets_model_value (fun p => p.lonx)
    [⟨10, 20, 0⟩] [⟨4, 3, 9⟩]).1 _ hmem⟩

theorem updateOrInsert_not_found {idx : List MetarData} {i : String}
    (hf : idx.find? (fun e => e.ident == i) = none) (m : String) (t : Int) :
    updateOrInsert idx m i t = idx ++ [⟨i, m, t⟩] := by
  rw [updateOrInsert, hf]

theorem updateOrInsert_found {idx : List MetarData} {i : String} {e0 : MetarData}
    (hf : idx.find? (fun e => e.ident == i) = some e0) (m : String) (t : Int) :
    updateOrInsert idx m i t =
      if e0.timestamp < t then
        idx.map (fun x => if x.ident == i then ⟨i, m, t⟩ else x)
      else idx := by
  rw [updateOrInsert, hf]

theorem metarFold_invariant (init : List MetarData) :
    ∀ (records idx processed : List MetarData),
      (idx.map (fun e => e.ident)).Nodup →
      (∀ e ∈ idx, e ∈ init ∨ e ∈ processed) →
      (∀ c ∈ init ++ processed, ∃ e ∈ idx, e.ident = c.ident) →
      (∀ e ∈ idx, ∀ c ∈ init ++ processed, c.ident = e.ident →
        c.timestamp ≤ e.timestamp) →
      (((records.foldl (fun idx r => updateOrInsert idx r.metar r.ident r.timestamp)
          idx).map (fun e => e.ident)).Nodup) ∧
      (∀ e ∈ records.foldl (fun idx r => updateOrInsert idx r.metar r.ident r.timestamp)
          idx, e ∈ init ∨ e ∈ processed ++ records) ∧
      (∀ e ∈ records.foldl (fun idx r => updateOrInsert idx r.metar r.ident r.timestamp)
          idx, ∀ c ∈ init ++ (processed ++ records), c.ident = e.ident →
        c.timestamp ≤ e.timestamp) := by
  intro records
  induction records with
  | nil =>
    intro idx processed hnd hprov hcov hmax
    refine ⟨hnd, ?_, ?_⟩
    · intro e he
      simpa using hprov e he
    · intro e he c hc
      exact hmax e he c (by simpa using hc)
  | cons r rest ih =>
    intro idx processed hnd hprov hcov hmax
    rw [List.foldl_cons]
    have hkey : (((updateOrInsert idx r.metar r.ident r.timestamp).map
          (fun e => e.ident)).Nodup) ∧
        (∀ e ∈ updateOrInsert idx r.metar r.ident r.timestamp,
          e ∈ init ∨ e ∈ processed ++ [r]) ∧
        (∀ c ∈ init ++ (processed ++ [r]),
          ∃ e ∈ updateOrInsert idx r.metar r.ident r.timestamp, e.ident = c.ident) ∧
        (∀ e ∈ updateOrInsert idx r.metar r.ident r.timestamp,
          ∀ c ∈ init ++ (processed ++ [r]), c.ident = e.ident →
          c.timestamp ≤ e.timestamp) := by
      have hsplit : ∀ c : MetarData, c ∈ init ++ (processed ++ [r]) →
          c ∈ init ++ processed ∨ c = r := by
        intro c hc
        rcases List.mem_append.1 hc with h | h
        · exact Or.inl (List.mem_append_left _ h)
        · rcases List.mem_append.1 h with h2 | h2
          · exact Or.inl (List.mem_append_right _ h2)
          · simp only [List.mem_singleton] at h2
            exact Or.inr h2
      have hjoin : ∀ c : MetarData, c ∈ init ++ processed →
          c ∈ init ++ (processed ++ [r]) := by
        intro c hc
        rcases List.mem_append.1 hc with h | h
        · exact List.mem_append_left _ h
        · exact List.mem_append_right _ (List.mem_append_left _ h)
      have hrmem : r ∈ init ++ (processed ++ [r]) :=
        List.mem_append_right _ (List.mem_append_right _ (List.mem_singleton_self _))
      cases hf : idx.find? (fun e => e.ident == r.ident) with
      | none =>
        have hnomem : ∀ x ∈ idx, x.ident ≠ r.ident := by
          intro x hx
          have := List.find?_eq_none.1 hf x hx
          simpa using this
        rw [updateOrInsert_not_found hf]
        refine ⟨?_, ?_, ?_, ?_⟩
        · rw [List.map_append, List.nodup_append]
          refine ⟨hnd, by simp, ?_⟩
          intro a ha hb
          simp only [List.map_cons, List.map_nil, List.mem_cons,
            List.not_mem_nil, or_false] at hb
          obtain ⟨x, hx, rfl⟩ := List.mem_map.1 ha
          exact hnomem x hx hb
        · intro e he
          rcases List.mem_append.1 he with he2 | he2
          · rcases hprov e he2 with h | h
            · exact Or.inl h
            · exact Or.inr (List.mem_append_left _ h)
          · simp only [List.mem_singleton] at he2
            subst he2
            exact Or.inr (List.mem_append_right _ (List.mem_singleton_self _))
        · intro c hc
          rcases hsplit c hc with h | rfl
          · obtain ⟨e, he, hei⟩ := hcov c h
            exact ⟨e, List.mem_append_left _ he, hei⟩
          · exact ⟨⟨c.ident, c.metar, c.timestamp⟩,
              List.mem_append_right _ (List.mem_singleton_self _), rfl⟩
        · intro e he c hc hci
          rcases List.mem_append.1 he with he2 | he2
          · rcases hsplit c hc with h | rfl
            · exact hmax e he2 c h hci
            · exact absurd hci.symm (hnomem e he2)
          · simp only [List.mem_singleton] at he2
            subst he2
            rcases hsplit c hc with h | rfl
            · obtain ⟨e2, he2, hei2⟩ := hcov c h
              exact absurd (hei2.trans hci) (hnomem e2 he2)
            · exact le_refl _
      | some e0 =>
        have he0mem : e0 ∈ idx := List.mem_of_find?_eq_some hf
        have he0id : e0.ident = r.ident := by
          have := List.find?_some hf
          simpa using this
        have huniq : ∀ x ∈ idx, x.ident = r.ident → x = e0 := by
          intro x hx hxi
          exact List.inj_on_of_nodup_map hnd hx he0mem (hxi.trans he0id.symm)
        by_cases hlt : e0.timestamp < r.timestamp
        · rw [updateOrInsert_found hf, if_pos hlt]
          have hmapid : ((idx.map (fun x => if x.ident == r.ident then
              (⟨r.ident, r.metar, r.timestamp⟩ : MetarData) else x)).map
              (fun e => e.ident)) = idx.map (fun e => e.ident) := by
            rw [List.map_map]
            apply List.map_congr_left
            intro x _
            by_cases hx : x.ident = r.ident
            · simp [Function.comp, hx]
            · simp [Function.comp, hx]
          refine ⟨by rw [hmapid]; exact hnd, ?_, ?_, ?_⟩
          · intro e he
            obtain ⟨x, hx, rfl⟩ := List.mem_map.1 he
            by_cases hxi : x.ident = r.ident
            · rw [if_pos (by simpa using hxi)]
              exact Or.inr (List.mem_append_right _ (List.mem_singleton_self _))
            · rw [if_neg (by simpa using hxi)]
              rcases hprov x hx with h | h
              · exact Or.inl h
              · exact Or.inr (List.mem_append_left _ h)
          · intro c hc
            rcases hsplit c hc with h | rfl
            · obtain ⟨e, he, hei⟩ := hcov c h
              refine ⟨if e.ident == r.ident then ⟨r.ident, r.metar, r.timestamp⟩ else e,
                List.mem_map_of_mem _ he, ?_⟩
              by_cases hx : e.ident = r.ident
              · rw [if_pos (by simpa using hx), ← hei, hx]
              · rw [if_neg (by simpa using hx), hei]
            · refine ⟨⟨c.ident, c.metar, c.timestamp⟩, ?_, rfl⟩
              refine List.mem_map.2 ⟨e0, he0mem, ?_⟩
              rw [if_pos (by simpa using he0id)]
          · intro e he c hc hci
            obtain ⟨x, hx, rfl⟩ := List.mem_map.1 he
            by_cases hxi : x.ident = r.ident
            · rw [if_pos (by simpa using hxi)] at hci ⊢
              rcases hsplit c hc with h | rfl
              · have h1 : c.timestamp ≤ x.timestamp :=
                  hmax x hx c h (by rw [hci, hxi])
                have h2 : x = e0 := huniq x hx hxi
                rw [h2] at h1
                show c.timestamp ≤ r.timestamp
                omega
              · exact le_refl _
            · rw [if_neg (by simpa using hxi)] at hci ⊢
              rcases hsplit c hc with h | rfl
              · exact hmax x hx c h hci
              · exact absurd hci.symm hxi
        · rw [updateOrInsert_found hf, if_neg hlt]
          refine ⟨hnd, ?_, ?_, ?_⟩
          · intro e he
            rcases hprov e he with h | h
            · exact Or.inl h
            · exact Or.inr (List.mem_append_left _ h)
          · intro c hc
            rcases hsplit c hc with h | rfl
            · exact hcov c h
            · exact ⟨e0, he0mem, he0id⟩
          · intro e he c hc hci
            rcases hsplit c hc with h | rfl
            · exact hmax e he c h hci
            · have he2 : e = e0 := huniq e he hci.symm
              subst he2
              show c.timestamp ≤ e.timestamp
              omega
    have hmain := ih (updateOrInsert idx r.metar r.ident r.timestamp) (processed ++ [r])
      hkey.1 hkey.2.1 hkey.2.2.1 hkey.2.2.2
    refine ⟨hmain.1, ?_, ?_⟩
    · intro e he
      rcases hmain.2.1 e he with h | h
      · exact Or.inl h
      · refine Or.inr ?_
        rw [List.append_assoc] at h
        simpa using h
    · intro e he c hc hci
      apply hmain.2.2 e he c ?_ hci
      rcases List.mem_append.1 hc with h | h
      · exact List.mem_append_left _ h
      · apply List.mem_append_right
        rw [List.append_assoc]
        simpa using h

theorem metarIndex_one_entry_latest_wins (records current : List MetarData) (merge : Bool)
    (hnd : (current.map (fun e => e.ident)).Nodup) :
    ((metarRead records merge current).map (fun e => e.ident)).Nodup ∧
    (∀ (idx : List MetarData) (m i : String) (t : Int),
      (idx.map (fun e => e.ident)).Nodup →
      ((updateOrInsert idx m i t).map (fun e => e.ident)).Nodup) ∧
    (∀ e ∈ metarRead records merge current,
      e ∈ (if merge then current else []) ∨ e ∈ records) ∧
    (∀ e ∈ metarRead records merge current,
      ∀ c ∈ (if merge then current else []) ++ records, c.ident = e.ident →
        c.timestamp ≤ e.timestamp) := by
  have hndinit : (((if merge then current else []) : List MetarData).map
      (fun e => e.ident)).Nodup := by
    cases merge with
    | true => simpa using hnd
    | false => simp
  have hinv := metarFold_invariant (if merge then current else []) records
    (if merge then current else []) []
    hndinit
    (fun e he => Or.inl he)
    (by
      intro c hc
      simp only [List.append_nil] at hc
      exact ⟨c, hc, rfl⟩)
    (by
      intro e he c hc hci
      simp only [List.append_nil] at hc
      have : c = e := List.inj_on_of_nodup_map hndinit hc he hci
      rw [this])
  refine ⟨hinv.1, ?_, ?_, ?_⟩
  · intro idx m i t hnd2
    cases hf : idx.find? (fun e => e.ident == i) with
    | none =>
      rw [updateOrInsert_not_found hf, List.map_append, List.nodup_append]
      refine ⟨hnd2, by simp, ?_⟩
      intro a ha hb
      simp only [List.map_cons, List.map_nil, List.mem_cons,
        List.not_mem_nil, or_false] at hb
      obtain ⟨x, hx, rfl⟩ := List.mem_map.1 ha
      have := List.find?_eq_none.1 hf x hx
      exact absurd hb (by simpa using this)
    | some e0 =>
      rw [updateOrInsert_found hf]
      by_cases hlt : e0.timestamp < t
      · rw [if_pos hlt, List.map_map]
        have : (idx.map ((fun e => e.ident) ∘
            (fun x => if x.ident == i then (⟨i, m, t⟩ : MetarData) else x))) =
            idx.map (fun e => e.ident) := by
          apply List.map_congr_left
          intro x _
          by_cases hx : x.ident = i
          · simp [Function.comp, hx]
          · simp [Function.comp, hx]
        rw [this]
        exact hnd2
      · rw [if_neg hlt]
        exact hnd2
  · intro e he
    have := hinv.2.1 e he
    simpa using this
  · intro e he c hc hci
    exact hinv.2.2 e he c (by simpa using hc) hci

theorem metarIndex_one_entry_latest_wins_witness :
    ((metarRead mRecsSeed true []).map (fun e => e.ident)).Nodup ∧
    metarRead mRecsSeed true [] = [⟨"KAAA", "KAAA 011300Z 10SM", 1300⟩] := by
  have h := metarIndex_one_entry_latest_wins mRecsSeed [] true (by simp)
  exact ⟨h.1, by decide⟩

theorem length_dropWhile_le {α : Type} (p : α → Bool) (l : List α) :
    (l.dropWhile p).length ≤ l.length := by
  induction l with
  | nil => simp
  | cons a l ih =>
    rw [List.dropWhile]
    cases p a with
    | true => exact Nat.le_succ_of_le ih
    | false => simp

theorem intToIcao_length_le (v : Nat) : (intToIcao v).length ≤ 5 := by
  show (((icaoDigits (v % 38 ^ 5)).dropWhile (fun d => d == 0)).map charOfIcaoCode).length ≤ 5
  rw [List.length_map]
  exact le_trans (length_dropWhile_le _ _) (by rfl)

/-- C8.  Decoding an approach record's primary header: the approach type is
the low nibble of the flags byte, the runway designator bits 4 to 6, the
GPS-overlay flag bit 7, and the fix identifier is the 28-bit field of the
fix word shifted right by 5, translated to an ICAO identifier of at most
five characters. -/
theorem approachHeader_bit_decode :
    (∀ b0 b1 b2 b3 b4 b5 b6 b7 b8 b9 b10 b11 b12 b13 b14 b15 b16 b17 b18 b19 b20
        b21 b22 b23 b24 b25 : Nat, ∀ rest : List Nat,
      approachPrimaryHeader ([b0, b1, b2, b3, b4, b5, b6, b7, b8, b9, b10, b11, b12,
          b13, b14, b15, b16, b17, b18, b19, b20, b21, b22, b23, b24, b25] ++ rest) =
        some
          { suffix := if 128 ≤ b0 % 256 then ((b0 % 256 : Nat) : Int) - 256
              else ((b0 % 256 : Nat) : Int)
            runwayNumber := b1
            approachType := b2 &&& 0xf
            runwayDesignator := (b2 >>> 4) &&& 0x7
            gpsOverlay := (b2 &&& 0x80) == 0x80
            numTransitions := b3
            numLegs := b4
            numMissedLegs := b5
            fixType := leWord b6 b7 b8 b9 &&& 0xf
            fixIdent := intToIcao ((leWord b6 b7 b8 b9 >>> 5) &&& 0xfffffff)
            fixRegion := intToIcao (leWord b10 b11 b12 b13 &&& 0x7ff)
            fixAirportIdent := intToIcao ((leWord b10 b11 b12 b13 >>> 11) &&& 0x1fffff)
            altitudeBits := leWord b14 b15 b16 b17
            headingBits := leWord b18 b19 b20 b21
            missedAltitudeBits := leWord b22 b23 b24 b25 }) ∧
    ∀ v : Nat, (intToIcao v).length ≤ 5 := by
  constructor
  · intro b0 b1 b2 b3 b4 b5 b6 b7 b8 b9 b10 b11 b12 b13 b14 b15 b16 b17 b18 b19
      b20 b21 b22 b23 b24 b25 rest
    simp only [approachPrimaryHeader, readByteSignedAt, readUIntAt, leWord]
    simp
    by_cases h : 128 ≤ b0 % 256
    · rw [if_pos h, if_pos (by omega)]
    · rw [if_neg h, if_neg (by omega)]
  · exact intToIcao_length_le

theorem approachSubRecordStep_fst_logs {Leg Trans : Type} (sim : SimulatorType)
    (debugInformation includeLeg : Bool) (parseLegs : List Nat → List Leg)
    (parseTrans : ApprRecordType → List Nat → Trans)
    (acc : ApproachChildren Leg Trans) (logs logs2 : List LogEvent) (r : SubRecord) :
    (approachSubRecordStep sim debugInformation includeLeg parseLegs parseTrans
      (acc, logs) r).1 =
    (approachSubRecordStep sim debugInformation includeLeg parseLegs parseTrans
      (acc, logs2) r).1 := by
  rcases r with ⟨tag, content⟩
  cases tag <;> simp only [approachSubRecordStep] <;> split <;> rfl

theorem approachFold_fst_indep {Leg Trans : Type} (sim : SimulatorType)
    (debugInformation includeLeg : Bool) (parseLegs : List Nat → List Leg)
    (parseTrans : ApprRecordType → List Nat → Trans) :
    ∀ (children : List SubRecord) (acc : ApproachChildren Leg Trans)
      (logs logs2 : List LogEvent),
      (children.foldl (approachSubRecordStep sim debugInformation includeLeg parseLegs
        parseTrans) (acc, logs)).1 =
      (children.foldl (approachSubRecordStep sim debugInformation includeLeg parseLegs
        parseTrans) (acc, logs2)).1 := by
  intro children
  induction children with
  | nil => intro acc logs logs2; rfl
  | cons r rest ih =>
    intro acc logs logs2
    rw [List.foldl_cons, List.foldl_cons]
    have h1 : approachSubRecordStep sim debugInformation includeLeg parseLegs parseTrans
        (acc, logs) r =
        ((approachSubRecordStep sim debugInformation includeLeg parseLegs parseTrans
          (acc, logs) r).1,
         (approachSubRecordStep sim debugInformation includeLeg parseLegs parseTrans
          (acc, logs) r).2) := rfl
    have h2 : approachSubRecordStep sim debugInformation includeLeg parseLegs parseTrans
        (acc, logs2) r =
        ((approachSubRecordStep sim debugInformation includeLeg parseLegs parseTrans
          (acc, logs2) r).1,
         (approachSubRecordStep sim debugInformation includeLeg parseLegs parseTrans
          (acc, logs2) r).2) := rfl
    rw [h1, h2, approachSubRecordStep_fst_logs sim debugInformation includeLeg parseLegs
      parseTrans acc logs logs2 r]
    exact ih _ _ _

theorem approachFold_fst_filter {Leg Trans : Type} (sim : SimulatorType)
    (debugInformation includeLeg : Bool) (parseLegs : List Nat → List Leg)
    (parseTrans : ApprRecordType → List Nat → Trans) :
    ∀ (children : List SubRecord) (acc : ApproachChildren Leg Trans)
      (logs logs2 : List LogEvent),
      (children.foldl (approachSubRecordStep sim debugInformation includeLeg parseLegs
        parseTrans) (acc, logs)).1 =
      ((children.filter (fun c => !c.recType.isUnknown)).foldl
        (approachSubRecordStep sim debugInformation includeLeg parseLegs parseTrans)
        (acc, logs2)).1 := by
  intro children
  induction children with
  | nil => intro acc logs logs2; rfl
  | cons r rest ih =>
    intro acc logs logs2
    rcases hr : r with ⟨tag, content⟩
    by_cases hu : (ApprRecordType.isUnknown tag) = true
    · have hfil : (SubRecord.mk tag content :: rest).filter
          (fun c => !c.recType.isUnknown) =
          rest.filter (fun c => !c.recType.isUnknown) := by
        rw [List.filter_cons]
        simp [hu]
      rw [hfil, List.foldl_cons]
      cases tag with
      | unknown t =>
        have hstep : (approachSubRecordStep sim debugInformation includeLeg parseLegs
            parseTrans (acc, logs) ⟨ApprRecordType.unknown t, content⟩).1 = acc := by
          simp only [approachSubRecordStep]
          split <;> rfl
        have hstep2 : approachSubRecordStep sim debugInformation includeLeg parseLegs
            parseTrans (acc, logs) ⟨ApprRecordType.unknown t, content⟩ =
            (acc, (approachSubRecordStep sim debugInformation includeLeg parseLegs
              parseTrans (acc, logs) ⟨ApprRecordType.unknown t, content⟩).2) := by
          rw [show (acc, (approachSubRecordStep sim debugInformation includeLeg parseLegs
              parseTrans (acc, logs) ⟨ApprRecordType.unknown t, content⟩).2) =
            ((approachSubRecordStep sim debugInformation includeLeg parseLegs
              parseTrans (acc, logs) ⟨ApprRecordType.unknown t, content⟩).1,
             (approachSubRecordStep sim debugInformation includeLeg parseLegs
              parseTrans (acc, logs) ⟨ApprRecordType.unknown t, content⟩).2) from
            by rw [hstep]]
        rw [hstep2]
        exact ih acc _ logs2
      | legs => simp [ApprRecordType.isUnknown] at hu
      | legsMsfs => simp [ApprRecordType.isUnknown] at hu
      | legsMsfs116 => simp [ApprRecordType.isUnknown] at hu
      | legsMsfs118 => simp [ApprRecordType.isUnknown] at hu
      | missedLegs => simp [ApprRecordType.isUnknown] at hu
      | missedLegsMsfs => simp [ApprRecordType.isUnknown] at hu
      | missedLegsMsfs116 => simp [ApprRecordType.isUnknown] at hu
      | missedLegsMsfs118 => simp [ApprRecordType.isUnknown] at hu
      | transition => simp [ApprRecordType.isUnknown] at hu
      | transitionMsfs => simp [ApprRecordType.isUnknown] at hu
      | transitionMsfs116 => simp [ApprRecordType.isUnknown] at hu
    · have hfil : (SubRecord.mk tag content :: rest).filter
          (fun c => !c.recType.isUnknown) =
          SubRecord.mk tag content :: rest.filter (fun c => !c.recType.isUnknown) := by
        rw [List.filter_cons]
        simp [hu]
      rw [hfil, List.foldl_cons, List.foldl_cons]
      have hkeep : ∀ logsx : List LogEvent,
          approachSubRecordStep sim debugInformation includeLeg parseLegs parseTrans
            (acc, logsx) ⟨tag, content⟩ =
          ((approachSubRecordStep sim debugInformation includeLeg parseLegs parseTrans
            (acc, logsx) ⟨tag, content⟩).1, logsx) := by
        intro logsx
        cases tag with
        | unknown t => simp [ApprRecordType.isUnknown] at hu
        | legs => simp only [approachSubRecordStep]; split <;> rfl
        | legsMsfs => simp only [approachSubRecordStep]; split <;> rfl
        | legsMsfs116 => simp only [approachSubRecordStep]; split <;> rfl
        | legsMsfs118 => simp only [approachSubRecordStep]; split <;> rfl
        | missedLegs => simp only [approachSubRecordStep]; split <;> rfl
        | missedLegsMsfs => simp only [approachSubRecordStep]; split <;> rfl
        | missedLegsMsfs116 => simp only [approachSubRecordStep]; split <;> rfl
        | missedLegsMsfs118 => simp only [approachSubRecordStep]; split <;> rfl
        | transition => rfl
        | transitionMsfs => rfl
        | transitionMsfs116 => rfl
      rw [hkeep logs, hkeep logs2]
      rw [approachSubRecordStep_fst_logs sim debugInformation includeLeg parseLegs
        parseTrans acc logs logs2 ⟨tag, content⟩]
      exact ih _ _ _

theorem approachSubRecordStep_known_logs {Leg Trans : Type} (sim : SimulatorType)
    (debugInformation includeLeg : Bool) (parseLegs : List Nat → List Leg)
    (parseTrans : ApprRecordType → List Nat → Trans)
    (acc : ApproachChildren Leg Trans) (logs : List LogEvent) (r : SubRecord)
    (h : r.recType.isUnknown = false) :
    approachSubRecordStep sim debugInformation includeLeg parseLegs parseTrans
      (acc, logs) r =
    ((approachSubRecordStep sim debugInformation includeLeg parseLegs parseTrans
      (acc, logs) r).1, logs) := by
  rcases r with ⟨tag, content⟩
  cases tag
  case unknown t => simp [ApprRecordType.isUnknown] at h
  all_goals simp only [approachSubRecordStep]
  all_goals split <;> rfl

theorem approachFold_logs {Leg Trans : Type} (sim : SimulatorType)
    (debugInformation includeLeg : Bool) (parseLegs : List Nat → List Leg)
    (parseTrans : ApprRecordType → List Nat → Trans) :
    ∀ (children : List SubRecord) (acc : ApproachChildren Leg Trans)
      (logs : List LogEvent),
      (children.foldl (approachSubRecordStep sim debugInformation includeLeg parseLegs
        parseTrans) (acc, logs)).2 =
      logs ++ (if debugInformation = true ∨ sim ≠ SimulatorType.msfs then
        (children.filter (fun c => c.recType.isUnknown)).map
          (fun c => ⟨LogLevel.warning, c.recType.rawTag⟩)
      else []) := by
  intro children
  induction children with
  | nil => intro acc logs; simp
  | cons r rest ih =>
    intro acc logs
    rw [List.foldl_cons]
    by_cases hu : r.recType.isUnknown = true
    · obtain ⟨t, content, ht⟩ : ∃ t content, r = ⟨ApprRecordType.unknown t, content⟩ := by
        rcases r with ⟨tag, content⟩
        cases tag
        case unknown t2 => exact ⟨t2, content, rfl⟩
        all_goals simp [ApprRecordType.isUnknown] at hu
      subst ht
      by_cases hc : debugInformation = true ∨ sim ≠ SimulatorType.msfs
      · have hstep : approachSubRecordStep sim debugInformation includeLeg parseLegs
            parseTrans (acc, logs) ⟨ApprRecordType.unknown t, content⟩ =
            (acc, logs ++ [⟨LogLevel.warning, t⟩]) := by
          simp only [approachSubRecordStep]
          rw [if_pos hc]
        rw [hstep, ih]
        rw [if_pos hc, if_pos hc, List.filter_cons]
        simp [ApprRecordType.isUnknown, ApprRecordType.rawTag]
      · have hstep : approachSubRecordStep sim debugInformation includeLeg parseLegs
            parseTrans (acc, logs) ⟨ApprRecordType.unknown t, content⟩ = (acc, logs) := by
          simp only [approachSubRecordStep]
          rw [if_neg hc]
        rw [hstep, ih]
        rw [if_neg hc, if_neg hc]
    · have hu2 : r.recType.isUnknown = false := by simpa using hu
      rw [approachSubRecordStep_known_logs sim debugInformation includeLeg parseLegs
        parseTrans acc logs r hu2, ih, List.filter_cons]
      simp [hu2]

/-- C9 (amended).  Unknown child tags never fail the parse: the parsed
children equal those of the input with the unknown records removed
(each skipped by seeking to its frame end, traversal continuing), and the
only log events are warnings, emitted for exactly the unknown tags when the
simulator is not MSFS or the build defines DEBUG_INFORMATION - for MSFS
release builds nothing is logged at all. -/
theorem approach_skips_unknown_subrecords {Leg Trans : Type} (sim : SimulatorType)
    (debugInformation includeLeg : Bool) (parseLegs : List Nat → List Leg)
    (parseTrans : ApprRecordType → List Nat → Trans) (children : List SubRecord) :
    (processApproachSubRecords sim debugInformation includeLeg parseLegs parseTrans
        children).1 =
      (processApproachSubRecords sim debugInformation includeLeg parseLegs parseTrans
        (children.filter (fun c => !c.recType.isUnknown))).1 ∧
    (processApproachSubRecords sim debugInformation includeLeg parseLegs parseTrans
        children).2 =
      (if debugInformation = true ∨ sim ≠ SimulatorType.msfs then
        (children.filter (fun c => c.recType.isUnknown)).map
          (fun c => ⟨LogLevel.warning, c.recType.rawTag⟩)
      else []) ∧
    ∀ e ∈ (processApproachSubRecords sim debugInformation includeLeg parseLegs parseTrans
        children).2, e.level = LogLevel.warning := by
  refine ⟨?_, ?_, ?_⟩
  · exact approachFold_fst_filter sim debugInformation includeLeg parseLegs parseTrans
      children ⟨[], [], []⟩ [] []
  · have h := approachFold_logs sim debugInformation includeLeg parseLegs parseTrans
      children ⟨[], [], []⟩ []
    simpa using h
  · intro e he
    have h := approachFold_logs sim debugInformation includeLeg parseLegs parseTrans
      children ⟨[], [], []⟩ []
    simp only [List.nil_append] at h
    rw [show (processApproachSubRecords sim debugInformation includeLeg parseLegs
        parseTrans children).2 = (children.foldl (approachSubRecordStep sim
        debugInformation includeLeg parseLegs parseTrans) (⟨[], [], []⟩, [])).2 from rfl,
      h] at he
    by_cases hc : debugInformation = true ∨ sim ≠ SimulatorType.msfs
    · rw [if_pos hc] at he
      obtain ⟨c, _, rfl⟩ := List.mem_map.1 he
      rfl
    · rw [if_neg hc] at he
      cases he

/-- C9 counterexample to the claim as frozen.  The claim asserts that for
MSFS archives an unknown tag "is logged at debug level"; in fact the
release-build code logs nothing at all for MSFS (the warning is guarded by
simulator type, and there is no debug-level log statement): processing an
unknown child under MSFS emits an empty log list, so in particular no
debug-level событие exists. -/
theorem approach_msfs_unknown_tag_counterexample :
    (processApproachSubRecords SimulatorType.msfs false true
        (fun _ => ([] : List Nat)) (fun _ _ => (0 : Nat))
        [⟨ApprRecordType.unknown 153, [7]⟩]).2 = [] ∧
    ¬ ∃ e ∈ (processApproachSubRecords SimulatorType.msfs false true
        (fun _ => ([] : List Nat)) (fun _ _ => (0 : Nat))
        [⟨ApprRecordType.unknown 153, [7]⟩]).2, e.level = LogLevel.debug := by
  have hlogs : (processApproachSubRecords SimulatorType.msfs false true
      (fun _ => ([] : List Nat)) (fun _ _ => (0 : Nat))
      [⟨ApprRecordType.unknown 153, [7]⟩]).2 = [] := by decide
  refine ⟨hlogs, ?_⟩
  rintro ⟨e, he, _⟩
  rw [hlogs] at he
  cases he

/-- Witness for C9 (amended) on a legacy simulator: a legs record, an
unknown record and a transition record; the unknown child is skipped, a
single warning with its tag is emitted, and that event is warning-level. -/
theorem approach_skips_unknown_subrecords_witness :
    (processApproachSubRecords SimulatorType.fsx false true
        (fun c => [c.length]) (fun _ c => c.length)
        [⟨ApprRecordType.legs, [1, 2]⟩, ⟨ApprRecordType.unknown 153, [0]⟩,
          ⟨ApprRecordType.transition, []⟩]).2 = [⟨LogLevel.warning, 153⟩] ∧
    (processApproachSubRecords SimulatorType.fsx false true
        (fun c => [c.length]) (fun _ c => c.length)
        [⟨ApprRecordType.legs, [1, 2]⟩, ⟨ApprRecordType.unknown 153, [0]⟩,
          ⟨ApprRecordType.transition, []⟩]).1 =
      (processApproachSubRecords SimulatorType.fsx false true
        (fun c => [c.length]) (fun _ c => c.length)
        ([⟨ApprRecordType.legs, [1, 2]⟩, ⟨ApprRecordType.unknown 153, [0]⟩,
          ⟨ApprRecordType.transition, []⟩].filter
            (fun c => !c.recType.isUnknown))).1 ∧
    (⟨LogLevel.warning, 153⟩ : LogEvent).level = LogLevel.warning := by
  have h := approach_skips_unknown_subrecords SimulatorType.fsx false true
    (fun c => [c.length]) (fun _ c => c.length)
    [⟨ApprRecordType.legs, [1, 2]⟩, ⟨ApprRecordType.unknown 153, [0]⟩,
      ⟨ApprRecordType.transition, []⟩]
  refine ⟨by decide, h.1, ?_⟩
  apply h.2.2
  decide
